import Mathlib

/-!
Verification development for the `mutationdiff` library (Azmisov/mutationdiff).

We give a shallow embedding of the core of the library:
* `TreeMutations` (src/TreeMutations.mjs) — the child-list mutation graph,
  together with `SiblingIndex` and `SiblingPromise` (src/PropertyMutations.mjs,
  which holds three classes: PropertyMutations, SiblingIndex, SiblingPromise),
* `PropertyMutations` — the attribute/data/custom property cache,
* the relevant parts of `MutationDiff` (src/mutationdiff.mjs):
  `mutated`, `diff`, `patch_grouped_children`.

Conventions of the embedding:
* DOM node handles are natural numbers (`Nat`).
* A JS `Map` is modelled by `JMap`, an insertion-ordered association list,
  since JS `Map` iteration order is insertion order and the library iterates
  its maps.
* A sibling slot in a position record can be JS `undefined` (unknown),
  `null` (list boundary), a node, or a `SiblingPromise`.  We model a slot as
  `Option Sibling` where `none` is `undefined`, and `Sibling` covers the
  other three.  A promise object is identified by its origin node and
  direction, which is how the source uses it: the promise searching for the
  original sibling of node `o` in direction `d` is created at most once and
  is stored at `o.original[d]` while unresolved.
* The mutable `ptr` field of a `SiblingPromise` is kept in a side table
  `promisePtr` of the tree state, keyed by the promise identity.
* The library's debug self-check `#assert_valid_state` is active in the
  source (the block is not commented out), so `mutation` and `synchronize`
  throw instead of returning whenever the check fails.  We model both as
  `Except String` values: `.error` corresponds to a thrown exception.
-/

deriving instance DecidableEq for Except

namespace MD

/-- Insertion-ordered association list modelling a JS `Map`.
JS `Map.set` keeps the original insertion position when the key exists. -/
def JMap (K V : Type) : Type := List (K × V)

namespace JMap

variable {K V : Type} [DecidableEq K]

/-- The empty map. -/
def empty : JMap K V := []

/-- JS `Map.get`. -/
def get : JMap K V → K → Option V
  | [], _ => none
  | (k', v) :: rest, k => if k' = k then some v else get rest k

/-- JS `Map.set`: replace in place if the key exists, else append. -/
def set : JMap K V → K → V → JMap K V
  | [], k, v => [(k, v)]
  | (k', v') :: rest, k, v =>
    if k' = k then (k, v) :: rest else (k', v') :: set rest k v

/-- JS `Map.delete` (keys are unique by construction). -/
def del : JMap K V → K → JMap K V
  | [], _ => []
  | (k', v') :: rest, k => if k' = k then rest else (k', v') :: del rest k

/-- JS `Map.has`. -/
def has (m : JMap K V) (k : K) : Bool := (m.get k).isSome

/-- The entries of the map as a list, in insertion order. -/
def entries (m : JMap K V) : List (K × V) := m

/-- Whether the map is empty. -/
def isEmpty (m : JMap K V) : Bool := m.entries.isEmpty

/-- Conjunction of a predicate over all entries, in order. -/
def all (m : JMap K V) (f : K → V → Bool) : Bool :=
  m.entries.all (fun e => f e.1 e.2)

/-- Fold over the entries in insertion order. -/
def fold {A : Type} (m : JMap K V) (f : A → K → V → A) (init : A) : A :=
  m.entries.foldl (fun a e => f a e.1 e.2) init

/-- Keep the entries satisfying the predicate (models a delete-while-iterating
loop that deletes everything else). -/
def filterKeep (m : JMap K V) (f : K → V → Bool) : JMap K V :=
  m.entries.filter (fun e => f e.1 e.2)

/-- JS `Map.size`. -/
def size (m : JMap K V) : Nat := m.length

/-- The keys, in insertion order. -/
def keys (m : JMap K V) : List K := m.map (·.1)

instance [DecidableEq V] : DecidableEq (JMap K V) := by
  unfold JMap; exact inferInstance

instance [Repr K] [Repr V] : Repr (JMap K V) := by
  unfold JMap; exact inferInstance

end JMap

/-- Sibling direction, the "side" of a position. -/
inductive Dir where
  | prev
  | next
deriving DecidableEq, Repr

/-- A non-`undefined` value of a sibling slot: `nil` is JS `null` (the
boundary of a child list), `node` is a node handle, `promise` is a
`SiblingPromise`, identified by its origin node and search direction. -/
inductive Sibling where
  | nil : Sibling
  | node : Nat → Sibling
  | promise : Nat → Dir → Sibling
deriving DecidableEq, Repr

/-- A position record, the JS object literal used for
`MutatedNode.original` and `MutatedNode.mutated`.
Slots are `Option Sibling`; `none` is JS `undefined` (unknown sibling).
The `parent` is `none` when the JS object was created with an `undefined`
parent. -/
structure Pos where
  parent : Option Nat := none
  prev : Option Sibling := none
  next : Option Sibling := none
deriving DecidableEq, Repr

/-- Read a slot of a position by direction. -/
def Pos.get (p : Pos) : Dir → Option Sibling
  | .prev => p.prev
  | .next => p.next

/-- Write a slot of a position by direction. -/
def Pos.set (p : Pos) : Dir → Option Sibling → Pos
  | .prev, v => { p with prev := v }
  | .next, v => { p with next := v }

/-- Container for a node's position change (src/MutatedNode.mjs).
`none` for `original`/`mutated` is the JS `null`, meaning an untracked
position (detached, or in an unobserved tree). -/
structure MutatedNode where
  node : Nat
  original : Option Pos := none
  mutated : Option Pos := none
deriving DecidableEq, Repr

/-- Dimension of a position: the two fields of `MutatedNode`. -/
inductive Mode where
  | original
  | mutated
deriving DecidableEq, Repr

/-- Read a dimension of a `MutatedNode`. -/
def MutatedNode.pos (mn : MutatedNode) : Mode → Option Pos
  | .original => mn.original
  | .mutated => mn.mutated

/-- Write a dimension of a `MutatedNode`. -/
def MutatedNode.setPos (mn : MutatedNode) : Mode → Option Pos → MutatedNode
  | .original, v => { mn with original := v }
  | .mutated, v => { mn with mutated := v }

/-- One of the two maps of a `SiblingIndex` pair: sibling node handle to the
`node` key of the `MutatedNode` holding that sibling (the JS index stores the
`MutatedNode` object itself; the object is recovered from `floating`). -/
structure SIndex where
  prev : JMap Nat Nat := JMap.empty
  next : JMap Nat Nat := JMap.empty
deriving DecidableEq, Repr

/-- Read one side of a `SiblingIndex`. -/
def SIndex.side (s : SIndex) : Dir → JMap Nat Nat
  | .prev => s.prev
  | .next => s.next

/-- Write one side of a `SiblingIndex`. -/
def SIndex.setSide (s : SIndex) : Dir → JMap Nat Nat → SIndex
  | .prev, m => { s with prev := m }
  | .next, m => { s with next := m }

/-- State of a `TreeMutations` object (src/TreeMutations.mjs):
the `floating` node map and the two sibling indexes, plus the side table of
`SiblingPromise.ptr` fields (see module header). -/
structure TreeMutations where
  floating : JMap Nat MutatedNode := JMap.empty
  original : SIndex := {}
  mutated : SIndex := {}
  promisePtr : JMap (Nat × Dir) (Option Nat) := JMap.empty
deriving DecidableEq, Repr

namespace TreeMutations

/-- The empty tree, the state produced by the constructor. -/
def empty : TreeMutations := {}

/-- TreeMutations.clear: remove all mutations.
The JS method clears `floating` and both indexes; promise pointer entries
for promises that no longer exist are irrelevant afterwards, and clearing
the side table matches the observable state. -/
def clear (_t : TreeMutations) : TreeMutations := {}

/-- TreeMutations.size. -/
def size (t : TreeMutations) : Nat := t.floating.size

/-- TreeMutations.has. -/
def has (t : TreeMutations) (n : Nat) : Bool := t.floating.has n

/-- TreeMutations.get. -/
def get (t : TreeMutations) (n : Nat) : Option MutatedNode := t.floating.get n

/-- Read the `SiblingIndex` of a dimension. -/
def idx (t : TreeMutations) : Mode → SIndex
  | .original => t.original
  | .mutated => t.mutated

/-- Write the `SiblingIndex` of a dimension. -/
def setIdx (t : TreeMutations) : Mode → SIndex → TreeMutations
  | .original, s => { t with original := s }
  | .mutated, s => { t with mutated := s }

/-- Store an updated `MutatedNode` back into `floating`.  This models an
in-place JS object mutation, so it only writes when the node is present:
mutating a detached object does not re-insert it into the map. -/
def setMN (t : TreeMutations) (mn : MutatedNode) : TreeMutations :=
  if t.floating.has mn.node then
    { t with floating := t.floating.set mn.node mn }
  else t

end TreeMutations

/-- SiblingIndex's private `#index` test: only truthy non-promise siblings are
indexed, i.e. exactly node handles (`null`, `undefined` and promises are not). -/
def indexable : Option Sibling → Option Nat
  | some (.node n) => some n
  | _ => none

namespace TreeMutations

/-- SiblingIndex.remove: remove a node's siblings from the index of
dimension `m`, keyed by the node's current slots.  Mirrors the JS, which
deletes the keys unconditionally. -/
def indexRemove (t : TreeMutations) (m : Mode) (mn : MutatedNode) : TreeMutations :=
  match mn.pos m with
  | none => t
  | some op =>
    let s := t.idx m
    let s := match indexable op.prev with
      | some k => { s with prev := s.prev.del k }
      | none => s
    let s := match indexable op.next with
      | some k => { s with next := s.next.del k }
      | none => s
    t.setIdx m s

/-- SiblingIndex.add: add a node's siblings to the index of dimension `m`. -/
def indexAdd (t : TreeMutations) (m : Mode) (mn : MutatedNode) : TreeMutations :=
  match mn.pos m with
  | none => t
  | some op =>
    let s := t.idx m
    let s := match indexable op.prev with
      | some k => { s with prev := s.prev.set k mn.node }
      | none => s
    let s := match indexable op.next with
      | some k => { s with next := s.next.set k mn.node }
      | none => s
    t.setIdx m s

/-- SiblingIndex.update: update one sibling slot of the node `mnid` in
dimension `m`, keeping the index in sync.  If the node has no position in
that dimension yet, a fresh one is created with the given `parent` (JS:
`op = node[this.mode] = \x7bparent\x7d`).  The slot write happens first, then
the old indexable sibling is un-indexed and the new one indexed.
If `mnid` is not in `floating` the JS would mutate a detached object with no
observable effect on the tree state; we leave the state unchanged. -/
def indexUpdate (t : TreeMutations) (m : Mode) (mnid : Nat) (sib : Option Sibling)
    (side : Dir) (parent : Option Nat) : TreeMutations :=
  match t.floating.get mnid with
  | none => t
  | some mn =>
    let op := match mn.pos m with
      | some op => op
      | none => { parent := parent }
    -- the JS assigns the fresh position object before the equality test
    let mn := mn.setPos m (some op)
    let old := op.get side
    if old = sib then t.setMN mn
    else
      let mn := mn.setPos m (some (op.set side sib))
      let t := t.setMN mn
      let t := match indexable old with
        | some k => t.setIdx m ((t.idx m).setSide side (((t.idx m).side side).del k))
        | none => t
      match indexable sib with
      | some k => t.setIdx m ((t.idx m).setSide side (((t.idx m).side side).set k mnid))
      | none => t

/-- SiblingPromise.resolve: the original sibling of `origin` in direction
`dir` was found to be `v`; write it through the original `SiblingIndex`
(`this.tree.original.update(this.mn, node, this.dir)`).  Note the source does
not clear the promise's placement here. -/
def resolve (t : TreeMutations) (origin : Nat) (dir : Dir) (v : Option Sibling) :
    TreeMutations :=
  t.indexUpdate .original origin v dir none

/-- SiblingPromise.discard: clean up the promise pointer
(`if (this.ptr) delete this.ptr.mutated[this.dir]`). -/
def discard (t : TreeMutations) (origin : Nat) (dir : Dir) : TreeMutations :=
  match t.promisePtr.get (origin, dir) with
  | some (some ptrid) =>
    match t.floating.get ptrid with
    | none => t  -- the pointer object is detached; deleting its slot is unobservable
    | some mn =>
      match mn.mutated with
      | none => t  -- unreachable in source (the placement slot would not exist)
      | some p => t.setMN (mn.setPos .mutated (some (p.set dir none)))
  | _ => t

end TreeMutations

/-- An argument that in the JS can be a `MutatedNode`, a plain `Node`,
`null`, or `undefined` (used for `SiblingPromise.resume` starts,
`prev_mn || prev` values and `#revert_check` hints). -/
inductive Hint where
  | mn : Nat → Hint
  | node : Nat → Hint
  | nil : Hint
  | undef : Hint
deriving DecidableEq, Repr

/-- Convert a `MutatedNode`-or-`Node`-or-null JS value `a || b` (a floating
record if found, else the plain node / null) to a `Hint`. -/
def hintOr (mnid : Option Nat) (node : Option Nat) : Hint :=
  match mnid with
  | some i => .mn i
  | none => match node with
    | some n => .node n
    | none => .nil

namespace TreeMutations

/-- The start of the loop body of SiblingPromise.resume: a traversed node
with a null `mutated` had an untracked add, so a mutated position with
unknown siblings is created for it
(`if (!smn.mutated) smn.mutated = \x7bparent: this.mn.original.parent\x7d`). -/
def resumeEnsureMutated (t : TreeMutations) (origin : Nat) (smn : MutatedNode) :
    TreeMutations × MutatedNode :=
  if smn.mutated.isNone then
    let par := ((t.floating.get origin).bind (·.original)).bind (·.parent)
    let smn := { smn with mutated := some { parent := par } }
    (t.setMN smn, smn)
  else (t, smn)

/-- Loop body of SiblingPromise.resume.  `smn` is the current traversal
record (JS `smn`), `cur` the JS `node` value that produced it.  Returns the
updated tree and whether the promise resolved (JS return value).  The source
loop terminates on acyclic sibling graphs; `fuel` bounds it, and exhaustion
leaves the promise unresolved without placing it (distinguishable from any
JS outcome only on cyclic graphs, where the JS would not terminate). -/
def resumeLoop (t : TreeMutations) (origin : Nat) (dir : Dir) :
    Nat → Option MutatedNode → Option Sibling → TreeMutations × Bool
  | 0, _, _ => (t, false)
  | _ + 1, none, cur =>
    -- resolve: promise -> fixed (node); `cur` is whatever JS `node` held
    (t.resolve origin dir cur, true)
  | fuel + 1, some smn, _ =>
    match t.resumeEnsureMutated origin smn with
    | (t, smn) =>
    match (smn.mutated.getD {}).get dir with
    | none =>
      -- sibling unknown: place the promise and pause
      let smn := smn.setPos .mutated
        (some ((smn.mutated.getD {}).set dir (some (.promise origin dir))))
      let t := t.setMN smn
      ({ t with promisePtr := t.promisePtr.set (origin, dir) (some smn.node) }, false)
    | some .nil => (t.resolve origin dir (some .nil), true)
    | some s =>
      let nxt := match s with
        | .node n => t.floating.get n
        | _ => none
      t.resumeLoop origin dir fuel nxt (some s)

/-- SiblingPromise.resume: resume the search for the original sibling of
`origin` in direction `dir`, starting at `h`. -/
def resume (t : TreeMutations) (origin : Nat) (dir : Dir) (h : Hint) (fuel : Nat) :
    TreeMutations × Bool :=
  match h with
  | .nil => (t.resolve origin dir (some .nil), true)
  | .undef =>
    -- `floating.get(undefined)` misses and the promise resolves to `undefined`
    (t.resolve origin dir none, true)
  | .node n => t.resumeLoop origin dir fuel (t.floating.get n) (some (.node n))
  | .mn n => t.resumeLoop origin dir fuel (t.floating.get n) (some (.node n))

/-- Write one sibling slot of a record directly, without touching the index.
Models the plain JS assignments such as
`fprev.original[forward_dir] = sibling` in `mutation`. -/
def setSlot (t : TreeMutations) (mnid : Nat) (m : Mode) (d : Dir) (v : Option Sibling) :
    TreeMutations :=
  match t.floating.get mnid with
  | none => t
  | some mn =>
    match mn.pos m with
    | none => t  -- the source would throw here (position object missing)
    | some p => t.setMN (mn.setPos m (some (p.set d v)))

end TreeMutations

/-- The mutable local state threaded through `TreeMutations.mutation`
(`siblings_known`, `last_fixed`, `last_promise`, `resolved`, `prev_mn`),
together with the tree itself.  `last_fixed : Option (Option Nat)` separates
JS `undefined` (outer `none`) from `null`/node (inner value);
`resolved` maps a promise origin record (by node) to its reversion bit flags. -/
structure MState where
  t : TreeMutations
  siblings_known : Bool := false
  last_fixed : Option (Option Nat) := none
  last_promise : Option (Nat × Dir) := none
  resolved : JMap Nat Nat := JMap.empty
  prev_mn : Option Nat := none

namespace TreeMutations

/-- Shared shape of the resume steps of `handle_promises`: resume the
promise `(o, d)` with hint `h`, marking it resolved on success. -/
def resumeInto (s : MState) (o : Nat) (d : Dir) (h : Hint) (fuel : Nat) : MState :=
  match s.t.resume o d h fuel with
  | (t, r) =>
    if r then { s with t := t, resolved := s.resolved.set o 0 }
    else { s with t := t }

/-- The `handle_prev` branch of the local `handle_promises` helper of
`TreeMutations.mutation`, for a floating record `mn0`. -/
def hpPrev (s : MState) (mn0 : MutatedNode) (fuel : Nat) : MState :=
  match mn0.mutated with
  | none => s
  | some m =>
    match m.prev with
    | none => { s with siblings_known := true }
    | some (.promise o d) =>
      match s.last_promise with
      | some (lo, ld) =>
        -- joint resolve: promise -> <- promise
        let t := s.t.resolve lo ld (some (.node o))
        let t := t.resolve o d (some (.node lo))
        { s with t := t,
                 resolved := (s.resolved.set lo 0).set o 0,
                 last_promise := none }
      | none =>
        match s.last_fixed with
        | some lf =>
          -- resolve: fixed node <- promise
          let t := s.t.resolve o d (some (match lf with
            | some k => Sibling.node k
            | none => Sibling.nil))
          { s with t := t, resolved := s.resolved.set o 0 }
        | none =>
          -- resume: floating node <- first promise (continues with prev_mn)
          let h : Hint := match s.prev_mn with
            | some i => .mn i
            | none => .undef
          resumeInto s o d h fuel
    | some _ => s

/-- The `handle_next` branch of `handle_promises`, for a floating record. -/
def hpNextTrue (s : MState) (mn1 : MutatedNode) : MState :=
  match mn1.mutated with
  | none => s
  | some m =>
    match m.next with
    | none => { s with siblings_known := true }
    | some (.promise o d) => { s with last_promise := some (o, d) }
    | some _ => s

/-- The final-call branch of `handle_promises` (`handle_next` false):
resume the last promise at the floating record `nid`. -/
def hpNextFalse (s : MState) (nid : Nat) (fuel : Nat) : MState :=
  match s.last_promise with
  | some (lo, ld) => resumeInto s lo ld (.mn nid) fuel
  | none => s

/-- The non-floating branch of `handle_promises`: record the fixed node and
resolve a pending promise to it. -/
def hpFixed (s : MState) (node : Option Nat) : MState :=
  let s := { s with last_fixed := some node }
  match s.last_promise with
  | some (lo, ld) =>
    -- resolve: promise -> fixed node
    let t := s.t.resolve lo ld (some (match node with
      | some k => Sibling.node k
      | none => Sibling.nil))
    { s with t := t, resolved := s.resolved.set lo 0, last_promise := none }
  | none => s

/-- The local helper `handle_promises(node, handle_prev, handle_next)` of
`TreeMutations.mutation`: resolve `SiblingPromise`s in the reported
`prev, removed…, next` walk.  Returns the updated state and the associated
floating record for `node` if one exists (the JS return value).
The next-side branch re-reads the record from the tree, since the JS reads
the same live object that the prev-side branch may have modified. -/
def handlePromises (s : MState) (node : Option Nat) (handle_prev handle_next : Bool)
    (fuel : Nat) : MState × Option Nat :=
  match node, node.bind s.t.floating.get with
  | some nid, some mn0 =>
    let s := if handle_prev then hpPrev s mn0 fuel else s
    let mn1 := (s.t.floating.get nid).getD mn0
    let s := if handle_next then hpNextTrue s mn1 else hpNextFalse s nid fuel
    (s, some nid)
  | _, _ => (hpFixed s node, none)

/-- Step 2 of `mutation`: process one removed node.  The accumulator carries
the state, the `fixed` list of newly created records for previously fixed
nodes, and the `revert_possible` flag. -/
def removalStep (parent : Nat) (fuel : Nat) :
    MState × List Nat × Bool → Nat → MState × List Nat × Bool :=
  fun acc node =>
    let (s, fixed, rp) := acc
    let (s, mnid) := handlePromises s (some node) true true fuel
    match mnid with
    | some _ =>
      -- (floating) previously moved node
      let mn := (s.t.floating.get node).getD { node := node }
      let t := s.t.indexRemove .mutated mn
      match mn.original with
      | none =>
        -- case: add + remove; ops cancel out
        ({ s with t := { t with floating := t.floating.del node } }, fixed, rp)
      | some o =>
        -- case: (remove + add)* + remove
        let t := t.setMN { mn with mutated := none }
        ({ s with t := t }, fixed, rp || decide (o.parent = some parent))
    | none =>
      -- (fixed) newly removed
      let mn : MutatedNode := { node := node, original := some { parent := some parent } }
      let t := { s.t with floating := s.t.floating.set node mn }
      ({ s with t := t }, fixed ++ [node], true)

/-- The local helper `original_promise_sibling(forward_dir, backward_dir,
hint)` of `mutation` step 3, applied to the record `fprev`. -/
def origPromiseSibling (t : TreeMutations) (fprev : Nat) (fdir bdir : Dir) (h : Hint)
    (fuel : Nat) : TreeMutations :=
  match ((t.idx .original).side bdir).get fprev with
  | some sibmn =>
    -- the original graph already records a sibling on that side
    t.setSlot fprev .original fdir (some (.node sibmn))
  | none =>
    -- start a SiblingPromise in that direction (fresh object: clear its ptr)
    let t := { t with promisePtr := t.promisePtr.set (fprev, fdir) none }
    let (t, r) := t.resume fprev fdir h fuel
    if r then t
    else t.setSlot fprev .original fdir (some (.promise fprev fdir))

/-- One iteration of the adjacent-pairs loop of `mutation` step 3: write the
original siblings of the adjacent newly-removed records `fprev`/`fnext`, then
index `fprev`. -/
def fixedPairStep (t : TreeMutations) (fprev fnext : Nat) : TreeMutations :=
  let t :=
    match t.original.prev.get fprev with
    | some sib =>
      -- original sibling(s) were removed from in between fprev-fnext
      let t := t.setSlot fprev .original .next (some (.node sib))
      match t.original.next.get fnext with
      | some sib2 => t.setSlot fnext .original .prev (some (.node sib2))
      | none => t  -- the source dereferences this lookup unconditionally
    | none =>
      -- fprev-fnext are each other's original sibling
      let t := t.setSlot fprev .original .next (some (.node fnext))
      t.setSlot fnext .original .prev (some (.node fprev))
  match t.floating.get fprev with
  | some mn => t.indexAdd .original mn
  | none => t

/-- The middle of `mutation` step 3: link adjacent newly-removed records as
each other's original siblings, indexing `fprev` at each step.  Returns the
final `fprev`. -/
def fixedPairs : TreeMutations → Nat → List Nat → TreeMutations × Nat
  | t, fprev, [] => (t, fprev)
  | t, fprev, fnext :: rest => fixedPairs (fixedPairStep t fprev fnext) fnext rest

/-- All of `mutation` step 3: set original siblings for the newly removed
(`fixed`) records. -/
def fixedChain (t : TreeMutations) (fixed : List Nat) (prevHint nextHint : Hint)
    (fuel : Nat) : TreeMutations :=
  match fixed with
  | [] => t
  | f0 :: rest =>
    let t := origPromiseSibling t f0 .prev .next prevHint fuel
    let (t, last) := fixedPairs t f0 rest
    let t := origPromiseSibling t last .next .prev nextHint fuel
    match t.floating.get last with
    | some mn => t.indexAdd .original mn
    | none => t

end TreeMutations

/-- Result of the local `fixed_anchor` search of `#revert_check`:
either a fixed anchor (`null` or a non-floating node), or a floating record
originating in the checked parent (a further candidate). -/
inductive Anchor where
  | fixed : Option Nat → Anchor
  | floating : Nat → Anchor
deriving DecidableEq, Repr

/-- JS comparison `mn.original[backward_dir] !== fixed` (negated): a stored
sibling slot equals the propagation anchor (`null` or a node handle) exactly
when both are `null` or both are the same node. -/
def slotEqFixed : Option Sibling → Option Nat → Bool
  | some .nil, none => true
  | some (.node a), some b => a == b
  | _, _ => false

namespace TreeMutations

/-- The `while` loop of `fixed_anchor`: search along mutated siblings in
direction `dir`, skipping floating nodes that originated in another parent. -/
def fixedAnchorLoop (t : TreeMutations) (parent : Option Nat) (dir : Dir) :
    Nat → MutatedNode → Option Anchor
  | 0, _ => none
  | fuel + 1, mn =>
    match mn.mutated with
    | none => none
    | some m =>
      match m.get dir with
      | none => none  -- revert check deferred until more siblings are known
      | some (.promise _ _) => none
      | some .nil => some (.fixed none)
      | some (.node n) =>
        match t.floating.get n with
        | none => some (.fixed (some n))
        | some mn2 =>
          if (mn2.original.bind (·.parent)) = parent then some (.floating n)
          else fixedAnchorLoop t parent dir fuel mn2

/-- The local `fixed_anchor(mn, exclusive, dir)` of `#revert_check`. -/
def fixedAnchor (t : TreeMutations) (h : Hint) (exclusive : Option Nat)
    (parent : Option Nat) (dir : Dir) (fuel : Nat) : Option Anchor :=
  -- caller knows there is no fixed anchor (`mn === exclusive`)
  let isExcl : Bool := match h, exclusive with
    | .mn i, some e => i == e
    | .undef, none => true
    | _, _ => false
  if isExcl then none
  else
    match h with
    | .nil => some (.fixed none)
    | .node n => some (.fixed (some n))
    | .undef =>
      -- no info on fixed anchors: search starting with the sibling of `exclusive`
      match exclusive.bind t.floating.get with
      | some emn => fixedAnchorLoop t parent dir fuel emn
      | none => none  -- unreachable: the equal-`undefined` case returned above
    | .mn i =>
      match t.floating.get i with
      | none => none  -- unreachable: hints reference live records
      | some mn =>
        if (mn.original.bind (·.parent)) = parent then some (.floating i)
        else fixedAnchorLoop t parent dir fuel mn

end TreeMutations

/-- The mutable state of the local `propagate` of `#revert_check`: the tree,
the `others` candidate map (the JS argument may be `null`), and the current
propagation anchor `fixed`. -/
structure PropState where
  t : TreeMutations
  others : Option (JMap Nat Nat)
  fixedv : Option Nat

namespace TreeMutations

/-- The local `mark_incorrect` of `propagate`: record in `others` that the
`backward_dir` side of this candidate is known not to match. -/
def markIncorrect (ps : PropState) (mnid : Nat) (bdir : Dir) : PropState :=
  match ps.others with
  | none => ps
  | some m =>
    match m.get mnid with
    | none => ps
    | some flags =>
      let flags := flags ||| (match bdir with | .prev => 1 | .next => 2)
      if flags == 3 then { ps with others := some (m.del mnid) }
      else { ps with others := some (m.set mnid flags) }

/-- The local `mark_fixed` of `propagate`: the record has returned to its
original position; delete it from the graph and both indexes, drop it from
`others`, discard any promise it still holds in `original[forward_dir]`,
and make it the new propagation anchor. -/
def markFixed (ps : PropState) (mn : MutatedNode) (fdir : Dir) : PropState :=
  let t := ps.t
  let t := { t with floating := t.floating.del mn.node }
  let t := t.indexRemove .original mn
  let t := t.indexRemove .mutated mn
  let others := ps.others.map (·.del mn.node)
  let t := match mn.original with
    | some o =>
      match o.get fdir with
      | some (.promise po pd) => t.discard po pd
      | _ => t
    | none => t  -- the source reads original[forward_dir] unconditionally
  { t := t, others := others, fixedv := some mn.node }

/-- The candidate `for` loop of `propagate`: walk `candidates` from `idx`
for `steps` iterations with increment `inc`, fixing matching candidates.
Returns the state, the last visited record (the JS `mn` variable, used by the
extension phase), and the index where propagation stopped, if it did. -/
def propagateCands (parent : Option Nat) (cands : List Nat) (fdir bdir : Dir)
    (inc : Int) :
    PropState → Option MutatedNode → Int → Nat → PropState × Option MutatedNode × Option Nat
  | ps, last, _, 0 => (ps, last, none)
  | ps, last, idx, steps + 1 =>
    match cands.get? idx.toNat with
    | none => (ps, last, none)  -- unreachable: the loop stays in bounds
    | some cid =>
      match ps.t.floating.get cid with
      | none => (ps, last, some idx.toNat)  -- unreachable: candidates are live
      | some mn =>
        if slotEqFixed ((mn.original.getD {}).get bdir) ps.fixedv then
          let ps := markFixed ps mn fdir
          propagateCands parent cands fdir bdir inc ps (some mn) (idx + inc) steps
        else
          -- incorrect sibling: can try from the other side instead
          (markIncorrect ps cid bdir, some mn, some idx.toNat)

/-- The inner `do…while` of the extension phase of `propagate`: advance along
mutated `fdir` siblings past floating nodes of other parents, to the next
record originating in `parent` (or stop at an unknown, promise, null or fixed
sibling). -/
def extendAdvance (t : TreeMutations) (parent : Option Nat) (fdir : Dir) :
    Nat → MutatedNode → Option MutatedNode
  | 0, _ => none
  | fuel + 1, mn =>
    match mn.mutated with
    | none => none  -- the source reads the slot unconditionally here
    | some m =>
      match m.get fdir with
      | none => none
      | some .nil => none
      | some (.promise _ _) => none
      | some (.node n) =>
        match t.floating.get n with
        | none => none
        | some mn2 =>
          if (mn2.original.bind (·.parent)) = parent then some mn2
          else extendAdvance t parent fdir fuel mn2

/-- The `while (true)` of the extension phase of `propagate`. -/
def extendLoop (parent : Option Nat) (fdir bdir : Dir) :
    PropState → MutatedNode → Nat → PropState
  | ps, _, 0 => ps
  | ps, mn, fuel + 1 =>
    match extendAdvance ps.t parent fdir (fuel + 1) mn with
    | none => ps
    | some mn2 =>
      if slotEqFixed ((mn2.original.getD {}).get bdir) ps.fixedv then
        extendLoop parent fdir bdir (markFixed ps mn2 fdir) mn2 fuel
      else markIncorrect ps mn2.node bdir

end TreeMutations

/-- The `extend` argument of `propagate`: `false`, `true`, or a
`MutatedNode`/node/null hint to start the extension at. -/
inductive Ext where
  | off
  | cont
  | hint : Hint → Ext
deriving DecidableEq, Repr

namespace TreeMutations

/-- The extension phase of `propagate` (the labelled `outer` block):
optionally continue propagating fixedness beyond the candidate span.
`last` is the JS `mn` variable after the candidate loop. -/
def propExtend (parent : Option Nat) (fdir bdir : Dir) (ext : Ext)
    (last : Option MutatedNode) (ps : PropState) (fuel : Nat) : PropState :=
  match ext with
  | .off => ps
  | .cont =>
    match last with
    | some mn => extendLoop parent fdir bdir ps mn fuel
    | none => ps  -- unreachable: extend is `true` only with candidates present
  | .hint h =>
    match h with
    | .mn i =>
      match ps.t.floating.get i with
      | none => ps  -- unreachable stale reference
      | some mn =>
        if (mn.original.bind (·.parent)) = parent then
          -- inclusive: the hinted record is itself a propagation target
          if slotEqFixed ((mn.original.getD {}).get bdir) ps.fixedv then
            extendLoop parent fdir bdir (markFixed ps mn fdir) mn fuel
          else markIncorrect ps i bdir
        else extendLoop parent fdir bdir ps mn fuel
    | _ => ps  -- the other side is a fixed node: do not propagate further

/-- The local `propagate(fixed, idx, end_idx, forward_dir, backward_dir,
extend)` of `#revert_check`.  The result index is JS `null` (`none`) when all
candidates reverted, else the index that failed to match. -/
def propagate (ps : PropState) (parent : Option Nat) (cands : List Nat)
    (startIdx : Int) (steps : Nat) (inc : Int) (fdir bdir : Dir) (ext : Ext)
    (fuel : Nat) : PropState × Option Nat :=
  let (ps, last, stopped) := propagateCands parent cands fdir bdir inc ps none startIdx steps
  match stopped with
  | some i => (ps, some i)
  | none => (propExtend parent fdir bdir ext last ps fuel, none)

/-- The prev-side half of `#revert_check` (everything after the next-side
propagation). -/
def revertCheckPrev (ps : PropState) (cands : List Nat) (parent : Option Nat)
    (prevH : Hint) (next_end_idx : Option Nat) (fuel : Nat) :
    TreeMutations × Option (JMap Nat Nat) :=
  if cands.length = 0 then (ps.t, ps.others)
  else
    match fixedAnchor ps.t prevH cands.head? parent .prev fuel with
    | some (.fixed fv) =>
      -- guaranteed at least one candidate when extend is true
      let ext := next_end_idx.isNone
      let steps := if ext then cands.length else next_end_idx.getD 0 + 1
      let e : Ext := if ext then .cont else .off
      let (ps, _) := propagate { ps with fixedv := fv } parent cands 0 steps 1
        .next .prev e fuel
      (ps.t, ps.others)
    | _ => (ps.t, ps.others)

/-- The `extend` argument of the next-side propagation of `#revert_check`
(`prev === undefined ? true : prev`). -/
def extOfPrevHint : Hint → Ext
  | .undef => .cont
  | h => .hint h

/-- `TreeMutations.#revert_check(candidates, parent, others, prev, next)`. -/
def revertCheck (t : TreeMutations) (cands : List Nat) (parent : Option Nat)
    (others : Option (JMap Nat Nat)) (prevH nextH : Hint) (fuel : Nat) :
    TreeMutations × Option (JMap Nat Nat) :=
  let ps : PropState := { t := t, others := others, fixedv := none }
  match fixedAnchor t nextH cands.getLast? parent .next fuel with
  | some (.fixed fv) =>
    let (ps, res) := propagate { ps with fixedv := fv } parent cands
      ((cands.length : Int) - 1) cands.length (-1) .prev .next (extOfPrevHint prevH) fuel
    match res with
    | none => (ps.t, ps.others)
    | some stopIdx => revertCheckPrev ps cands parent prevH (some stopIdx) fuel
  | some (.floating f) =>
    -- a floating node can be a candidate when propagating from the prev side
    revertCheckPrev ps (cands ++ [f]) parent prevH none fuel
  | none => revertCheckPrev ps cands parent prevH none fuel

end TreeMutations

/-- The JS idiom `a || b` for sibling values: a node from `a` if present,
else the node-or-null `b`. -/
def sibOr (a b : Option Nat) : Sibling :=
  match a with
  | some n => .node n
  | none =>
    match b with
    | some n => .node n
    | none => .nil

namespace TreeMutations

/-- JS `x?.mutated?.d === undefined` for an optional record reference. -/
def mutSlotUndef (t : TreeMutations) (mnid : Option Nat) (d : Dir) : Bool :=
  match mnid with
  | none => true
  | some i =>
    match (t.floating.get i).bind (·.mutated) with
    | none => true
    | some m => (m.get d).isNone

/-- Step 4 of `mutation`: process the addition at index `ai` of `added`. -/
def addedStep (parent : Nat) (added : List Nat) (prev next : Option Nat) :
    TreeMutations × List Nat → Nat → TreeMutations × List Nat :=
  fun acc ai =>
    let (t, cands) := acc
    match added.get? ai with
    | none => (t, cands)  -- unreachable: `ai` ranges over the list
    | some node =>
      let (t, mn, cands) :=
        match t.floating.get node with
        | none =>
          -- case: add
          let mn : MutatedNode := { node := node }
          (({ t with floating := t.floating.set node mn } : TreeMutations), mn, cands)
        | some mn =>
          -- case: remove + add (add + add is not permitted; the source reads
          -- mn.original.parent directly and would throw were original null)
          let cands :=
            if (mn.original.bind (·.parent)) = some parent then cands ++ [node]
            else cands
          (t, mn, cands)
      let prevOf := if ai = 0 then none else added.get? (ai - 1)
      let pos : Pos := { parent := some parent,
                         prev := some (sibOr prevOf prev),
                         next := some (sibOr (added.get? (ai + 1)) next) }
      let mn := { mn with mutated := some pos }
      let t := t.setMN mn
      (t.indexAdd .mutated mn, cands)

/-- The final loop of `mutation`: per-origin revert checks for the
surviving `resolved` promises.  The JS iterates the live map, deleting each
visited entry first; no entries are ever added, so taking the first
remaining entry each round is equivalent.  `fuel` bounds the rounds (the JS
loop always terminates since the map shrinks every round). -/
def resolvedLoop (t : TreeMutations) (parent : Nat) :
    JMap Nat Nat → Nat → TreeMutations
  | _, 0 => t
  | [], _ => t
  | (id, flags) :: rest, fuel + 1 =>
    let prevH : Hint := if flags &&& 1 != 0 then .mn id else .undef
    let nextH : Hint := if flags &&& 2 != 0 then .mn id else .undef
    let (t, o) := revertCheck t [id] (some parent) (some rest) prevH nextH fuel
    resolvedLoop t parent (o.getD JMap.empty) fuel

/-- The two guarded `SiblingIndex.update` statements opening step 4 of
`mutation`: update the mutated sibling of the record `o` if there is one. -/
def idxUpdOpt (t : TreeMutations) (o : Option Nat) (sib : Option Sibling)
    (d : Dir) (parent : Nat) : TreeMutations :=
  match o with
  | some i => t.indexUpdate .mutated i sib d (some parent)
  | none => t

/-- Step 5 of `mutation`: run `#revert_check` over the candidates when
anything may have reverted, keeping the surviving `resolved` map. -/
def mutStep5 (t : TreeMutations) (cands : List Nat) (parent : Nat)
    (resolved : JMap Nat Nat) (ph nh : Hint) (cond : Bool) (fuel : Nat) :
    TreeMutations × JMap Nat Nat :=
  if cond then
    let (t, o) := revertCheck t cands (some parent) (some resolved) ph nh fuel
    (t, o.getD JMap.empty)
  else (t, resolved)

/-- The state-transforming part of `TreeMutations.mutation(parent, removed,
added, prev, next)`, without the trailing debug self-check. -/
def mutationCore (t : TreeMutations) (parent : Nat) (removed added : List Nat)
    (prev next : Option Nat) (fuel : Nat) : TreeMutations :=
  let s : MState := { t := t }
  -- step 1 interleaved with step 2: promise resolution and removals
  let (s, pm) := handlePromises s prev false true fuel
  let s := { s with prev_mn := pm }
  let (s, fixed, revert_possible) :=
    removed.foldl (removalStep parent fuel) (s, ([] : List Nat), false)
  let (s, next_mn) := handlePromises s next true false fuel
  let siblings_known := s.siblings_known || !s.resolved.isEmpty
  -- if another unknown sibling would stop the revert check again
  let siblings_known :=
    if siblings_known && mutSlotUndef s.t s.prev_mn .prev
        && mutSlotUndef s.t next_mn .next then false
    else siblings_known
  -- filter out resolved promises known to be in incorrect position
  let resolved := s.resolved.filterKeep (fun id _ =>
    match (s.t.floating.get id).bind (·.mutated) with
    | some m => m.parent == some parent
    | none => false)
  let t := s.t
  -- step 3: original siblings for newly removed nodes
  let t := fixedChain t fixed (hintOr s.prev_mn prev) (hintOr next_mn next) fuel
  -- step 4: update prev_mn/next_mn mutated siblings, then process additions
  let t := idxUpdOpt t s.prev_mn (some (sibOr added.head? next)) .next parent
  let t := idxUpdOpt t next_mn (some (sibOr added.getLast? prev)) .prev parent
  let (t, cands) := (List.range added.length).foldl (addedStep parent added prev next) (t, [])
  -- step 5: reversion propagation
  let (t, resolved) := mutStep5 t cands parent resolved
    (hintOr s.prev_mn prev) (hintOr next_mn next)
    (revert_possible || siblings_known || !cands.isEmpty) fuel
  resolvedLoop t parent resolved fuel

/-- The per-slot part of `#assert_valid_state` (step "check SiblingIndex's"):
`null` and `undefined` and promises must not be indexed (impossible here since
the index only holds node keys, exactly as the guarded JS inserts ensure),
unknown siblings and promises are rejected after synchronization, and an
indexed node sibling must map back to the owning record. -/
def checkSlot (t : TreeMutations) (synchronized : Bool) (mode : Mode)
    (dir : Dir) (mn : MutatedNode) (mval : Option Sibling) : Bool :=
  match mval with
  | none => !synchronized
  | some (.promise _ _) => !synchronized
  | some .nil => true
  | some (.node k) => ((t.idx mode).side dir).get k == some mn.node

/-- The slot sweep of `#assert_valid_state`. -/
def checkSlots (t : TreeMutations) (synchronized : Bool) : Bool :=
  t.floating.all fun _ mn =>
    [Mode.original, Mode.mutated].all fun mode =>
      match mn.pos mode with
      | none => true
      | some mnm =>
        [Dir.prev, Dir.next].all fun dir =>
          checkSlot t synchronized mode dir mn (mnm.get dir)

/-- The promise collection of `#assert_valid_state`: for every promise found
in some slot, the records referencing it from `original` and from `mutated`
slots, in sweep order. -/
def collectPromises (t : TreeMutations) : JMap (Nat × Dir) (List Nat × List Nat) :=
  t.floating.fold (fun acc _ mn =>
    [Mode.original, Mode.mutated].foldl (fun acc mode =>
      match mn.pos mode with
      | none => acc
      | some mnm =>
        [Dir.prev, Dir.next].foldl (fun acc dir =>
          match mnm.get dir with
          | some (.promise o d) =>
            let store := (acc.get (o, d)).getD ([], [])
            let store := match mode with
              | .original => (store.1 ++ [mn.node], store.2)
              | .mutated => (store.1, store.2 ++ [mn.node])
            acc.set (o, d) store
          | _ => acc) acc) acc)
    JMap.empty

/-- The promise validation of `#assert_valid_state`: every promise seen in a
slot has a `ptr` that is a record, exactly one `mutated` pointer which is that
`ptr`, and exactly one `original` origin reference. -/
def checkPromises (t : TreeMutations) : Bool :=
  (collectPromises t).all fun pid store =>
    let (origRefs, mutRefs) := store
    match t.promisePtr.get pid with
    | some (some p) =>
      mutRefs.length == 1 && mutRefs.head? == some p && origRefs.length == 1
    | _ => false

/-- The walk of the local `check_anchor` of `#assert_valid_state`. -/
def checkAnchorLoop (t : TreeMutations) (parent : Option Nat) (dir : Dir)
    (target : Option Sibling) : Nat → Option Sibling → Bool
  | 0, _ => true  -- the source loop would not terminate on a cyclic graph
  | fuel + 1, sibling =>
    match sibling with
    | some (.node k) =>
      match t.floating.get k with
      | none => target != sibling  -- fixed found: reverted if it matches
      | some smn =>
        if (smn.original.bind (·.parent)) = parent then true
        else
          match smn.mutated with
          | none => true  -- cannot traverse to get a fixed anchor
          | some m =>
            match m.get dir with
            | none => true
            | some (.promise _ _) => true
            | s => checkAnchorLoop t parent dir target fuel s
    | _ => target != sibling  -- floating.get misses for null/undefined/promise

/-- The local `check_anchor(smn, dir)` of `#assert_valid_state` (`true` means
no "node position is reverted" violation). -/
def checkAnchor (t : TreeMutations) (smn : MutatedNode) (dir : Dir) (fuel : Nat) :
    Bool :=
  let parent := (smn.original.getD {}).parent
  let target := (smn.original.getD {}).get dir
  let sibling := (smn.mutated.getD {}).get dir
  checkAnchorLoop t parent dir target fuel sibling

/-- The revert sweep of `#assert_valid_state`. -/
def checkReverts (t : TreeMutations) (fuel : Nat) : Bool :=
  t.floating.all fun _ mn =>
    match mn.mutated, mn.original with
    | some m, some o =>
      if m.parent = o.parent then
        checkAnchor t mn .prev fuel && checkAnchor t mn .next fuel
      else true
    | _, _ => true

/-- `TreeMutations.#assert_valid_state(synchronized)`: the debug self-check,
which is active in the source.  `true` means no exception is thrown. -/
def assertValidState (t : TreeMutations) (synchronized : Bool) (fuel : Nat) : Bool :=
  checkSlots t synchronized && checkPromises t && checkReverts t fuel

/-- The trailing debug self-check of `mutation`: the source throws (after
logging) when `#assert_valid_state()` fails, else the call returns. -/
def checkedResult (t : TreeMutations) (fuel : Nat) : Except String TreeMutations :=
  if assertValidState t false fuel then .ok t
  else .error "invalid graph"

/-- `TreeMutations.mutation(parent, removed, added, prev, next)`.
The active debug self-check at the end of the method throws on an invalid
graph; a thrown exception is modelled as `.error`. -/
def mutation (t : TreeMutations) (parent : Nat) (removed added : List Nat)
    (prev next : Option Nat) (fuel : Nat) : Except String TreeMutations :=
  checkedResult (mutationCore t parent removed added prev next fuel) fuel

end TreeMutations

/-- Convert a JS `Node | null` value to a sibling slot value. -/
def sibOfOpt (a : Option Nat) : Sibling :=
  match a with
  | some n => .node n
  | none => .nil

/-- A model of the live DOM, as far as the library reads it: the child lists
(from which `parentNode`, `previousSibling`, `nextSibling`, `contains` and
`compareDocumentPosition` derive), attribute values and character data. -/
structure DOM where
  children : JMap Nat (List Nat) := JMap.empty
  attrs : JMap (Nat × String) (Option String) := JMap.empty
  charData : JMap Nat (Option String) := JMap.empty
deriving DecidableEq, Repr

namespace DOM

/-- The child list of a node. -/
def childList (d : DOM) (p : Nat) : List Nat := (d.children.get p).getD []

/-- `node.parentNode` (null when detached). -/
def parentNode (d : DOM) (n : Nat) : Option Nat :=
  (d.children.entries.find? (fun e => e.2.contains n)).map (·.1)

/-- Ancestor walk for `contains`, fuelled by the number of parents. -/
def containsGo (d : DOM) (root : Nat) : Nat → Nat → Bool
  | 0, _ => false
  | fuel + 1, n =>
    if root == n then true
    else
      match d.parentNode n with
      | some p => d.containsGo root fuel p
      | none => false

/-- `root.contains(n)`: true for `root` itself and its descendants; JS
`contains` of null/undefined is false. -/
def contains (d : DOM) (root : Nat) (n : Option Nat) : Bool :=
  match n with
  | some n => d.containsGo root (d.children.size + 1) n
  | none => false

/-- `root.compareDocumentPosition(n) & DOCUMENT_POSITION_CONTAINED_BY`:
`n` is a strict descendant of `root`. -/
def containedBy (d : DOM) (root n : Nat) : Bool :=
  n != root && d.contains root (some n)

/-- `node.previousSibling`. -/
def prevSibling (d : DOM) (n : Nat) : Option Nat :=
  match d.parentNode n with
  | none => none
  | some p =>
    let l := d.childList p
    match l.indexOf? n with
    | some i => if i = 0 then none else l.get? (i - 1)
    | none => none

/-- `node.nextSibling`. -/
def nextSibling (d : DOM) (n : Nat) : Option Nat :=
  match d.parentNode n with
  | none => none
  | some p =>
    let l := d.childList p
    match l.indexOf? n with
    | some i => l.get? (i + 1)
    | none => none

/-- `node.getAttribute(key)` (null when absent). -/
def getAttribute (d : DOM) (n : Nat) (key : String) : Option String :=
  (d.attrs.get (n, key)).getD none

/-- `node.data` for a CharacterData node. -/
def dataOf (d : DOM) (n : Nat) : Option String :=
  (d.charData.get n).getD none

end DOM

/-- The mutable local state of `TreeMutations.synchronize`: reversion
`candidates` (promise origin record to reversion flags), the `pair_hints`
list (prev hint, next hint, parent), the two `pair_handled` sets, and the
two promise queues.  A queued promise is `(origin, dir, resume_with)`;
`prev_promises` is keyed by the record whose `mutated.prev` held the
promise. -/
structure SyncState where
  t : TreeMutations
  candidates : JMap Nat Nat := JMap.empty
  pair_hints : List (Hint × Hint × Option Nat) := []
  handled_prev : List Nat := []
  handled_next : List Nat := []
  next_promises : List (Nat × Dir × Option Nat) := []
  prev_promises : JMap Nat (Nat × Dir × Option Nat) := JMap.empty

/-- Read/update the `pair_handled` set of a direction. -/
def SyncState.handled (s : SyncState) : Dir → List Nat
  | .prev => s.handled_prev
  | .next => s.handled_next

/-- Write the `pair_handled` set of a direction. -/
def SyncState.setHandled (s : SyncState) : Dir → List Nat → SyncState
  | .prev, l => { s with handled_prev := l }
  | .next, l => { s with handled_next := l }

namespace TreeMutations

/-- The local `collect_promises(mn, forward_dir, backward_dir, prev_dir)` of
`synchronize`: if the `forward_dir` mutated sibling of `mnid` is unknown or a
promise, queue the promise for resolution, record reversion candidates and
pair hints, and overwrite the slot with the live sibling. -/
def collectPromisesStep (s : SyncState) (dom : DOM) (mnid : Nat)
    (fdir bdir : Dir) (prev_dir : Bool) : SyncState :=
  match s.t.floating.get mnid with
  | none => s  -- unreachable: phase 1 iterates live records
  | some mn =>
    match mn.mutated with
    | none => s  -- guarded by the caller
    | some m =>
      let slot := m.get fdir
      let promiseId : Option (Nat × Dir) := match slot with
        | some (.promise o d) => some (o, d)
        | _ => none
      -- sibling known: nothing to do
      if promiseId.isNone && slot.isSome then s
      else
        let actual := if prev_dir then dom.prevSibling mn.node else dom.nextSibling mn.node
        -- sibling was unknown
        let s :=
          match promiseId with
          | some (o, d) =>
            -- candidate for reversion (`pmn.original.parent === pmn.mutated?.parent`)
            let pmn := s.t.floating.get o
            let s :=
              if ((pmn.bind (·.original)).bind (·.parent))
                  = ((pmn.bind (·.mutated)).bind (·.parent)) then
                { s with candidates := s.candidates.set o 0 }
              else s
            -- collect the promise to be resolved later (promise.resume_with)
            if prev_dir then
              { s with prev_promises := s.prev_promises.set mnid (o, d, actual) }
            else { s with next_promises := s.next_promises ++ [(o, d, actual)] }
          | none => s
        -- an unknown sibling could have been blocking a revert check
        let s :=
          if (s.handled fdir).contains mnid then
            s.setHandled fdir ((s.handled fdir).erase mnid)
          else
            let parent := m.parent
            let mn_correct := parent = (mn.original.bind (·.parent))
            let pmnl := actual.bind s.t.floating.get
            let pmn_correct := match pmnl with
              | some pmn2 => parent = (pmn2.original.bind (·.parent))
              | none => false
            if !mn_correct || !pmn_correct then
              if mn_correct == pmn_correct then
                -- both sides incorrect: record a pair hint
                let (pairVal, s) := match pmnl with
                  | some pmn2 =>
                    (Hint.mn pmn2.node, s.setHandled bdir ((s.handled bdir) ++ [pmn2.node]))
                  | none =>
                    (match actual with
                      | some a => Hint.node a
                      | none => Hint.nil, s)
                let hint := match fdir with
                  | .prev => (pairVal, Hint.mn mnid, parent)
                  | .next => (Hint.mn mnid, pairVal, parent)
                { s with pair_hints := s.pair_hints ++ [hint] }
              else
                let cand := if mn_correct then mnid else
                  (pmnl.map (·.node)).getD mnid
                { s with candidates := s.candidates.set cand 0 }
            else s
        -- write the live sibling through the mutated index
        { s with t := s.t.indexUpdate .mutated mnid (some (sibOfOpt actual)) fdir none }

/-- One iteration of the main loop of `synchronize` (phase 1), including the
active mid-loop debug assertions, which throw when the engine's view of a
node disagrees with the live tree. -/
def syncStep (dom : DOM) (s : SyncState) (mnid : Nat) : Except String SyncState :=
  match s.t.floating.get mnid with
  | none => .ok s  -- unreachable: phase 1 does not delete records
  | some mn =>
    let s :=
      if mn.mutated.isSome then
        let s := collectPromisesStep s dom mnid .prev .next true
        collectPromisesStep s dom mnid .next .prev false
      else
        -- an untracked add that is now placed: read the position from the tree
        match dom.parentNode mn.node with
        | some p =>
          let pos : Pos := { parent := some p,
                             next := some (sibOfOpt (dom.nextSibling mn.node)),
                             prev := some (sibOfOpt (dom.prevSibling mn.node)) }
          let mn := { mn with mutated := some pos }
          let t := s.t.setMN mn
          { s with t := t.indexAdd .mutated mn }
        | none => s
    -- debug assertions (active in the source)
    let mnNow := (s.t.floating.get mnid).getD mn
    match dom.parentNode mnNow.node with
    | none =>
      if mnNow.mutated.isSome then .error "mutated should be null" else .ok s
    | some _ =>
      let m := mnNow.mutated.getD {}
      if m.prev ≠ some (sibOfOpt (dom.prevSibling mnNow.node)) then
        .error "prev sibling incorrect"
      else if m.next ≠ some (sibOfOpt (dom.nextSibling mnNow.node)) then
        .error "next sibling incorrect"
      else .ok s

/-- The walk resolving one `next`-direction promise in `synchronize`
(phase 2), handling the promise-meets-promise case via `prev_promises`.
The JS walk carries raw slot values; an unknown or promise value falls out
of the walk and is resolved as-is, and a record with a null `mutated`
would make the source throw. -/
def syncNextWalk (pp : JMap Nat (Nat × Dir × Option Nat)) (o : Nat) (d : Dir) :
    TreeMutations → Nat → Option Sibling →
    Except String (TreeMutations × JMap Nat (Nat × Dir × Option Nat))
  | t, 0, _ => .ok (t, pp)  -- fuel: the JS walk terminates on live sibling chains
  | t, fuel + 1, cur =>
    match cur with
    | some (.node k) =>
      match t.floating.get k with
      | none => .ok (t.resolve o d cur, pp)
      | some mn =>
        match pp.get k with
        | some (po, pd, _) =>
          -- resolve: promise -> <- promise
          let t := t.resolve o d (some (.node po))
          let t := t.resolve po pd (some (.node o))
          .ok (t, pp.del k)
        | none =>
          match mn.mutated with
          | none => .error "TypeError: cannot read mutated.next of null"
          | some m => syncNextWalk pp o d t fuel (m.get .next)
    | _ => .ok (t.resolve o d cur, pp)

/-- Phase 2 of `synchronize`: resolve all `next`-sibling promises. -/
def syncNextLoop (t : TreeMutations) (pp : JMap Nat (Nat × Dir × Option Nat)) :
    List (Nat × Dir × Option Nat) → Nat →
    Except String (TreeMutations × JMap Nat (Nat × Dir × Option Nat))
  | [], _ => .ok (t, pp)
  | (o, d, rw) :: rest, fuel =>
    match syncNextWalk pp o d t fuel (rw.map .node |>.orElse (fun _ => some .nil)) with
    | .error e => .error e
    | .ok (t, pp) => syncNextLoop t pp rest fuel

/-- The walk resolving one `prev`-direction promise in `synchronize`
(phase 3). -/
def syncPrevWalk (o : Nat) (d : Dir) :
    TreeMutations → Nat → Option Sibling → Except String TreeMutations
  | t, 0, _ => .ok t
  | t, fuel + 1, cur =>
    match cur with
    | some (.node k) =>
      match t.floating.get k with
      | none => .ok (t.resolve o d cur)
      | some mn =>
        match mn.mutated with
        | none => .error "TypeError: cannot read mutated.prev of null"
        | some m => syncPrevWalk o d t fuel (m.get .prev)
    | _ => .ok (t.resolve o d cur)

/-- Phase 3 of `synchronize`: resolve the remaining `prev`-sibling promises. -/
def syncPrevLoop (t : TreeMutations) :
    List (Nat × (Nat × Dir × Option Nat)) → Nat → Except String TreeMutations
  | [], _ => .ok t
  | (_, (o, d, rw)) :: rest, fuel =>
    match syncPrevWalk o d t fuel (rw.map .node |>.orElse (fun _ => some .nil)) with
    | .error e => .error e
    | .ok t => syncPrevLoop t rest fuel

/-- Phase 4 of `synchronize`: per-candidate revert checks, with the same
iterate-and-delete pattern as the `resolved` loop of `mutation`. -/
def syncCandidatesLoop (t : TreeMutations) : JMap Nat Nat → Nat → TreeMutations
  | _, 0 => t
  | [], _ => t
  | (id, flags) :: rest, fuel + 1 =>
    let parent := ((t.floating.get id).bind (·.original)).bind (·.parent)
    let prevH : Hint := if flags &&& 1 != 0 then .mn id else .undef
    let nextH : Hint := if flags &&& 2 != 0 then .mn id else .undef
    let (t, o) := t.revertCheck [id] parent (some rest) prevH nextH fuel
    syncCandidatesLoop t (o.getD JMap.empty) fuel

/-- Phase 5 of `synchronize`: revert checks for the collected pair hints
(`#revert_check([], parent, null, prev, next)`). -/
def syncPairHints (t : TreeMutations) :
    List (Hint × Hint × Option Nat) → Nat → TreeMutations
  | [], _ => t
  | (ph, nh, parent) :: rest, fuel =>
    let (t, _) := t.revertCheck [] parent none ph nh fuel
    syncPairHints t rest fuel

/-- The trailing `#assert_valid_state(true)` of `synchronize` (active in the
source): throw when the check fails, else return. -/
def syncChecked (t : TreeMutations) (fuel : Nat) : Except String TreeMutations :=
  if assertValidState t true fuel then .ok t
  else .error "invalid graph after synchronization"

/-- `TreeMutations.synchronize()`: resolve node positions for untracked node
insertions by consulting the live tree `dom`.  The mid-loop debug assertions
and the final `#assert_valid_state(true)` are active in the source; a thrown
exception is `.error`. -/
def synchronize (t : TreeMutations) (dom : DOM) (fuel : Nat) :
    Except String TreeMutations :=
  match t.floating.keys.foldlM (syncStep dom) ({ t := t } : SyncState) with
  | .error e => .error e
  | .ok s =>
    match syncNextLoop s.t s.prev_promises s.next_promises fuel with
    | .error e => .error e
    | .ok (t, pp) =>
      match syncPrevLoop t pp.entries fuel with
      | .error e => .error e
      | .ok t =>
        syncChecked (syncPairHints (syncCandidatesLoop t s.candidates fuel) s.pair_hints fuel) fuel

end TreeMutations

/-- One entry of the property cache: the original value captured on first
sight, and whether the property currently differs from it.  Values are
modelled as `Option String` (`none` is JS `null`, e.g. an absent attribute). -/
structure PropEntry where
  value : Option String
  dirty : Bool
deriving DecidableEq, Repr

/-- Which of the two maps of `PropertyMutations` an operation addresses. -/
inductive PropMode where
  | native
  | custom
deriving DecidableEq, Repr

/-- State of a `PropertyMutations` object (src/PropertyMutations.mjs):
`native` holds attribute entries (key `some name`) and the character-data
entry (key `none`, the JS null key); `custom` holds user-defined properties
(modelled with the same key and value types).  The two counters are the JS
`_clean` and `_dirty` fields. -/
structure PropertyMutations where
  native : JMap (Option String) PropEntry := JMap.empty
  custom : JMap (Option String) PropEntry := JMap.empty
  clean_count : Int := 0
  dirty_count : Int := 0
deriving DecidableEq, Repr

namespace PropertyMutations

/-- The `size` getter. -/
def size (p : PropertyMutations) : Nat := p.native.size + p.custom.size

/-- PropertyMutations.mark(mode, key, value, old_value). -/
def mark (p : PropertyMutations) (mode : PropMode) (key : Option String)
    (value old_value : Option String) : PropertyMutations :=
  let m := match mode with | .native => p.native | .custom => p.custom
  match m.get key with
  | none =>
    -- unseen property
    let dirty := value != old_value
    let m := m.set key { value := old_value, dirty := dirty }
    let p := match mode with
      | .native => { p with native := m }
      | .custom => { p with custom := m }
    if dirty then { p with dirty_count := p.dirty_count + 1 }
    else { p with clean_count := p.clean_count + 1 }
  | some props =>
    -- previously cached; just update the dirty flag
    let dirty := value != props.value
    if dirty != props.dirty then
      let m := m.set key { props with dirty := dirty }
      let p := match mode with
        | .native => { p with native := m }
        | .custom => { p with custom := m }
      let change : Int := if dirty then 1 else -1
      { p with dirty_count := p.dirty_count + change,
               clean_count := p.clean_count - change }
    else p

end PropertyMutations

/-- A write to the live tree performed by `PropertyMutations.revert`. -/
inductive DOMEffect where
  | setData : Nat → Option String → DOMEffect
  | removeAttribute : Nat → String → DOMEffect
  | setAttribute : Nat → String → Option String → DOMEffect
deriving DecidableEq, Repr

namespace PropertyMutations

/-- PropertyMutations.revert(node, custom_set): restore all dirty native
entries through the tree APIs.  When a `custom_set` callback is provided the
source then runs `for (const [key,o] of props.custom)`, but no binding
`props` is in scope anywhere in PropertyMutations.revert or its module, so
evaluating it throws a ReferenceError; the throw is modelled as `.error`. -/
def revert (p : PropertyMutations) (node : Nat) (custom_set : Bool) :
    Except String (List DOMEffect) :=
  let native_effects := p.native.fold (fun acc attr o =>
    if !o.dirty then acc
    else
      match attr with
      | none => acc ++ [DOMEffect.setData node o.value]
      | some a =>
        match o.value with
        | none => acc ++ [DOMEffect.removeAttribute node a]
        | some v => acc ++ [DOMEffect.setAttribute node a (some v)]) []
  if custom_set then .error "ReferenceError: props is not defined"
  else .ok native_effects

/-- PropertyMutations.synchronize(): drop clean entries, reset the counters,
return the remaining dirty count. -/
def synchronize (p : PropertyMutations) : PropertyMutations × Int :=
  let native := p.native.filterKeep (fun _ o => o.dirty)
  let custom := p.custom.filterKeep (fun _ o => o.dirty)
  let dc : Int := Int.ofNat (native.size + custom.size)
  let p : PropertyMutations :=
    { native := native, custom := custom, clean_count := 0, dirty_count := dc }
  (p, p.dirty_count)

end PropertyMutations

/-- The `MutationDiffFlags` bitmask (src/mutationdiff.mjs). -/
def ALL : Nat := 0xFFFF

/-- Flag: include the mutated (current) values. -/
def MUTATED : Nat := 0b10000

/-- Flag: include the original values. -/
def ORIGINAL : Nat := 0b100000

/-- Flag: attribute, data and custom property changes combined. -/
def PROPERTY : Nat := 0b111

/-- Flag: character data changes. -/
def DATA : Nat := 0b1

/-- Flag: attribute changes. -/
def ATTRIBUTE : Nat := 0b10

/-- Flag: custom property changes. -/
def CUSTOM : Nat := 0b100

/-- Flag: node additions, removals or movements. -/
def CHILDREN : Nat := 0b1000

/-- State of a `MutationDiff` object (src/mutationdiff.mjs). -/
structure MutationDiff where
  props : JMap Nat PropertyMutations := JMap.empty
  tree : TreeMutations := {}
deriving DecidableEq, Repr

namespace MutationDiff

/-- MutationDiff.#prop: the shared attribute/data/custom tracking path. -/
def prop (md : MutationDiff) (node : Nat) (mode : PropMode) (key : Option String)
    (value old_value : Option String) : MutationDiff :=
  let props := (md.props.get node).getD {}
  let props := props.mark mode key value old_value
  { md with props := md.props.set node props }

/-- MutationDiff.attribute(node, key, old_value): the current value is read
from the live tree with `node.getAttribute(key)`. -/
def attribute_ (md : MutationDiff) (dom : DOM) (node : Nat) (key : String)
    (old_value : Option String) : MutationDiff :=
  md.prop node .native (some key) (dom.getAttribute node key) old_value

/-- MutationDiff.data(node, old_value): the null key denotes character data;
the current value is `node.data`. -/
def data (md : MutationDiff) (dom : DOM) (node : Nat) (old_value : Option String) :
    MutationDiff :=
  md.prop node .native none (dom.dataOf node) old_value

/-- MutationDiff.custom(node, key, value, old_value). -/
def custom (md : MutationDiff) (node : Nat) (key : Option String)
    (value old_value : Option String) : MutationDiff :=
  md.prop node .custom key value old_value

/-- MutationDiff.children(parent, removed, added, prev, next): delegate to
the tree-mutation engine. -/
def children (md : MutationDiff) (parent : Nat) (removed added : List Nat)
    (prev next : Option Nat) (fuel : Nat) : Except String MutationDiff :=
  (md.tree.mutation parent removed added prev next fuel).map
    (fun t => { md with tree := t })

/-- MutationDiff.mutated(root?): whether the tracked tree differs from its
original state. -/
def mutated (md : MutationDiff) (dom : DOM) (root : Option Nat) : Bool :=
  match root with
  | some r =>
    (md.props.entries.any fun e =>
      e.2.dirty_count != 0 && dom.containedBy r e.1)
    || (md.tree.floating.entries.any fun e =>
      let op := e.2
      (op.original.isSome && dom.contains r ((op.original.getD {}).parent))
      || ((dom.parentNode op.node).isSome && dom.contains r (dom.parentNode op.node)))
  | none =>
    md.tree.size != 0 || md.props.entries.any fun e => e.2.dirty_count != 0

end MutationDiff

/-- A property diff as produced by `MutationDiff.diff`: each side is present
exactly when the corresponding flag was set and a value was produced. -/
structure DiffProperty where
  original : Option (Option String) := none
  mutated : Option (Option String) := none
deriving DecidableEq, Repr

/-- A position as copied by the local `copy_obj` of `MutationDiff.diff`:
`prev`/`next` are omitted (outer `none`) when the stored slot is unknown or a
promise. -/
structure DiffPos where
  parent : Option Nat := none
  prev : Option (Option Nat) := none
  next : Option (Option Nat) := none
deriving DecidableEq, Repr

/-- The children part of a node's diff. -/
structure DiffChildren where
  original : Option DiffPos := none
  mutated : Option DiffPos := none
deriving DecidableEq, Repr

/-- One node's entry in the map returned by `MutationDiff.diff`. -/
structure DiffEntry where
  data : Option DiffProperty := none
  attribute_ : Option (JMap (Option String) DiffProperty) := none
  custom : Option (JMap (Option String) DiffProperty) := none
  children : Option DiffChildren := none
deriving DecidableEq, Repr

/-- The local `copy_obj` of `MutationDiff.diff`. -/
def copyObj : Option Pos → Option DiffPos
  | none => none
  | some o =>
    some { parent := o.parent,
           prev := match o.prev with
             | some (.node n) => some (some n)
             | some .nil => some none
             | _ => none,
           next := match o.next with
             | some (.node n) => some (some n)
             | some .nil => some none
             | _ => none }

namespace MutationDiff

/-- MutationDiff.diff(filter, custom_get): materialize a copy of the current
delta.  `custom_get` models the optional callback fetching current custom
property values. -/
def diff (md : MutationDiff) (dom : DOM) (filter : Nat)
    (custom_get : Option (Nat → Option String → Option String)) :
    JMap Nat DiffEntry :=
  let FORIGINAL := filter &&& ORIGINAL
  let FMUTATED := filter &&& MUTATED
  if FORIGINAL != 0 || FMUTATED != 0 then
    let out : JMap Nat DiffEntry := JMap.empty
    -- diffs from PropertyMutations
    let out :=
      if filter &&& PROPERTY != 0 then
        md.props.fold (fun out node cache =>
          if cache.dirty_count == 0 then out
          else
            let log : DiffEntry := {}
            let has_diff := false
            -- data
            let (log, has_diff) :=
              if filter &&& DATA != 0 then
                match cache.native.get none with
                | some op =>
                  if op.dirty then
                    let d : DiffProperty :=
                      { original := if FORIGINAL != 0 then some op.value else none,
                        mutated := if FMUTATED != 0 then some (dom.dataOf node) else none }
                    ({ log with data := some d }, true)
                  else (log, has_diff)
                | none => (log, has_diff)
              else (log, has_diff)
            -- attributes
            let (log, has_diff) :=
              if filter &&& ATTRIBUTE != 0 then
                let attrs := cache.native.fold (fun attrs key op =>
                  if !op.dirty || key == none then attrs
                  else
                    let d : DiffProperty :=
                      { original := if FORIGINAL != 0 then some op.value else none,
                        mutated :=
                          if FMUTATED != 0 then
                            some (dom.getAttribute node (key.getD ""))
                          else none }
                    attrs.set key d)
                  (JMap.empty : JMap (Option String) DiffProperty)
                if !attrs.isEmpty then ({ log with attribute_ := some attrs }, true)
                else (log, has_diff)
              else (log, has_diff)
            -- custom properties
            let (log, has_diff) :=
              if filter &&& CUSTOM != 0 then
                let cust := cache.custom.fold (fun cust key op =>
                  if !op.dirty then cust
                  else
                    let d : DiffProperty :=
                      { original := if FORIGINAL != 0 then some op.value else none,
                        mutated := match FMUTATED != 0, custom_get with
                          | true, some get => some (get node key)
                          | _, _ => none }
                    cust.set key d)
                  (JMap.empty : JMap (Option String) DiffProperty)
                if !cust.isEmpty then ({ log with custom := some cust }, true)
                else (log, has_diff)
              else (log, has_diff)
            if has_diff then out.set node log else out) out
      else out
    -- diffs from TreeMutations
    let out :=
      if filter &&& CHILDREN != 0 then
        md.tree.floating.fold (fun out _ op =>
          let node := op.node
          let log := (out.get node).getD {}
          let d : DiffChildren :=
            { original := if FORIGINAL != 0 then copyObj op.original else none,
              mutated := if FMUTATED != 0 then copyObj op.mutated else none }
          out.set node { log with children := some d }) out
      else out
    out
  else JMap.empty

end MutationDiff

/-- A group as consumed by `MutationDiff.patch_grouped_children`:
`parent` is `none` for a removed-nodes group (JS null), and the `prev`/`next`
endpoints distinguish JS `undefined` (outer `none`) from `null`
(`some none`). -/
structure Group where
  nodes : List Nat
  parent : Option Nat := none
  prev : Option (Option Nat) := none
  next : Option (Option Nat) := none
deriving DecidableEq, Repr

/-- A move performed by `patch_grouped_children` on the caller's tree. -/
inductive PatchEffect where
  | remove : Nat → PatchEffect
  | before : Nat → List Nat → PatchEffect
  | append : Nat → List Nat → PatchEffect
  | after : Nat → List Nat → PatchEffect
  | prepend : Nat → List Nat → PatchEffect
deriving DecidableEq, Repr

/-- The first loop of `patch_grouped_children`: detach every node of every
group, and collect the groups to re-insert with their `next` flag
(`g.next !== undefined`).  For a group with a parent but neither endpoint
the source logs a warning and then executes `throw Error("assertion error")`;
the `continue` that follows the throw is unreachable, so the whole call
aborts, modelled as `.error`. -/
def patchCollect : List Group → Except String (List PatchEffect × List (Group × Bool))
  | [] => .ok ([], [])
  | g :: rest =>
    let eff := g.nodes.map PatchEffect.remove
    match g.parent with
    | some _ =>
      let next_set := g.next.isSome
      if !next_set && g.prev.isNone then .error "assertion error"
      else
        (patchCollect rest).map (fun r => (eff ++ r.1, (g, next_set) :: r.2))
    | none =>
      (patchCollect rest).map (fun r => (eff ++ r.1, r.2))

/-- The second loop of `patch_grouped_children`: perform the node movements.
Note the insertion branch re-tests the truthiness of `g.next`/`g.prev`, so a
`null` endpoint uses `append`/`prepend` on the parent. -/
def patchApply (adds : List (Group × Bool)) : List PatchEffect :=
  adds.map fun e =>
    let (g, next_set) := e
    if next_set then
      match g.next with
      | some (some n) => PatchEffect.before n g.nodes
      | _ => PatchEffect.append (g.parent.getD 0) g.nodes
    else
      match g.prev with
      | some (some n) => PatchEffect.after n g.nodes
      | _ => PatchEffect.prepend (g.parent.getD 0) g.nodes

namespace MutationDiff

/-- MutationDiff.patch_grouped_children(groups), as the sequence of tree
operations it performs; a thrown exception is `.error`. -/
def patch_grouped_children (groups : List Group) :
    Except String (List PatchEffect) :=
  (patchCollect groups).map (fun r => r.1 ++ patchApply r.2)

end MutationDiff

/-- The position of a node in a live tree: the spec's data-model triple
(parent, previous sibling, next sibling).  This is the claim-side notion of
"position" (spec §3, "Known — triple (parent, prev, next)"), used to state
the ledger claims against a live tree. -/
def DOM.position (d : DOM) (n : Nat) : Option Nat × Option Nat × Option Nat :=
  (d.parentNode n, d.prevSibling n, d.nextSibling n)

/-- One public child-list report, the argument tuple of
`TreeMutations.mutation`. -/
structure MCall where
  parent : Nat
  removed : List Nat := []
  added : List Nat := []
  prev : Option Nat := none
  next : Option Nat := none
deriving DecidableEq, Repr

/-- Apply a sequence of `mutation` calls from a starting state, stopping at
the first thrown exception. -/
def TreeMutations.applyCalls (t : TreeMutations) (cs : List MCall) (fuel : Nat) :
    Except String TreeMutations :=
  cs.foldlM (fun t c => t.mutation c.parent c.removed c.added c.prev c.next fuel) t

/-!  Concrete scenario states used by the claim theorems.
Node naming: root = 0, A = 1, B = 2, C = 3, D = 4 (and further handles as
noted per scenario). -/

/-- Scenario of claim C2 (spec scenario 1): original children of root 0 are
[1,2,3,4]; remove 1 from the front, then append it at the back. -/
def c2_run : Except String TreeMutations :=
  (TreeMutations.empty.mutation 0 [1] [] none (some 2) 100).bind fun t =>
    t.mutation 0 [] [1] (some 4) none 100

/-- The live tree after the C2 scenario: root 0 has children [2,3,4,1]. -/
def c2_dom : DOM := { children := [(0, [2, 3, 4, 1])] }

/-- The record held for node 1 after the C2 scenario. -/
def c2_record : MutatedNode where
  node := 1
  original := some { parent := some 0, prev := some .nil, next := some (.node 2) }
  mutated := some { parent := some 0, prev := some (.node 4), next := some .nil }

/-- The engine state after the C2 scenario (the value of `c2_run`). -/
def c2_state : TreeMutations where
  floating := [(1, c2_record)]
  original := { prev := [], next := [(2, 1)] }
  mutated := { prev := [(4, 1)], next := [] }
  promisePtr := [((1, Dir.prev), none), ((1, Dir.next), none)]

/-- Scenario of claim C9 (spec scenario 2): root 0 starts empty; insert 1,
then remove it again. -/
def c9_run : Except String TreeMutations :=
  (TreeMutations.empty.mutation 0 [] [1] none none 100).bind fun t =>
    t.mutation 0 [1] [] none none 100

/-- The live tree of the C9 scenario (root 0 empty again). -/
def c9_dom : DOM := { children := [(0, [])] }

/-- Script for the C4 counterexample.  History (root 0 = [1,2] originally,
3 an orphan subtree that is only intermittently observed): node 1 is removed
from root (reported); 1 is inserted into 3 unobserved; 3 is inserted before
2 (reported); 4 is appended inside 3 after 1 (reported), which gives record
1 a partially known mutated position and indexes 4 as its mutated next
sibling; 1 then leaves 3 unobserved and is re-appended after 2 (reported).
The re-addition replaces record 1's mutated position without purging the old
index entry for key 4. -/
def c4_run : Except String TreeMutations :=
  (TreeMutations.empty.mutation 0 [1] [] none (some 2) 100).bind fun t =>
  (TreeMutations.mutation t 0 [] [3] none (some 2) 100).bind fun t =>
  (TreeMutations.mutation t 3 [] [4] (some 1) none 100).bind fun t =>
  TreeMutations.mutation t 0 [] [1] (some 2) none 100

/-- Original live tree for the C1 counterexample: root 0 with children
[1, 2]. -/
def c1_dom_before : DOM := { children := [(0, [1, 2])] }

/-- Live tree after the C1 counterexample call (node 1 removed). -/
def c1_dom_after : DOM := { children := [(0, [2])] }

/-- The single report of the C1 counterexample: remove node 1, whose
point-in-time next sibling was 2. -/
def c1_run : Except String TreeMutations :=
  TreeMutations.empty.mutation 0 [1] [] none (some 2) 100

/-- A tree state with one placed `SiblingPromise` for the C8 counterexample:
record 10 is searching for its original `prev` sibling; the promise is
placed at record 11's `mutated.prev` slot (`ptr` = 11), and stored in record
10's own `original.prev`. -/
def c8_origin : MutatedNode where
  node := 10
  original := some { parent := some 0, prev := some (.promise 10 .prev), next := some .nil }
  mutated := some { parent := some 0, prev := some .nil, next := some .nil }

/-- The record holding the placement of the C8 promise in its
`mutated.prev` slot. -/
def c8_ptr : MutatedNode where
  node := 11
  original := none
  mutated := some { parent := some 0, prev := some (.promise 10 .prev), next := some .nil }

/-- See `c8_origin`: the C8 counterexample tree state. -/
def c8_tree : TreeMutations where
  floating := [(10, c8_origin), (11, c8_ptr)]
  promisePtr := [((10, Dir.prev), some 11)]

/-- A property cache with one dirty native entry and one dirty custom entry,
for the C6 failing input. -/
def c6_props : PropertyMutations :=
  { native := [(some "id", { value := none, dirty := true })],
    custom := [(some "k", { value := some "v", dirty := true })],
    clean_count := 0, dirty_count := 2 }

/-- Live tree for the C7 counterexample: node 5 currently has attribute
"id" = "x". -/
def c7_dom : DOM := { attrs := [((5, "id"), some "x")] }

/-- The C7 counterexample call: an attribute record for node 5 delivered
without an old value (`oldValue` null). -/
def c7_md : MutationDiff := ({} : MutationDiff).attribute_ c7_dom 5 "id" none

/-- Result of synchronizing the C2 state against its live tree (used as the
C3 witness run). -/
def c3_run : Except String TreeMutations := c2_state.synchronize c2_dom 100

/-- A `MutationDiff` state with a record and a dirty property, used by the
C10 witness: `diff` must still return an empty map when neither dimension
flag is set. -/
def c10_md : MutationDiff :=
  { props := [(5, { native := [(some "id", { value := none, dirty := true })],
                    custom := [], clean_count := 0, dirty_count := 1 })],
    tree := c2_state }

/-- The engine state after the first C2 call alone (`mutation 0 [1] [] none
(some 2)` from empty), used by the C4 witness. -/
def c4w_record : MutatedNode where
  node := 1
  original := some { parent := some 0, prev := some .nil, next := some (.node 2) }
  mutated := none

/-- See `c4w_record`: the one-call engine state of the C4 witness. -/
def c4w_state : TreeMutations where
  floating := [(1, c4w_record)]
  original := { prev := [], next := [(2, 1)] }
  mutated := { prev := [], next := [] }
  promisePtr := [((1, Dir.prev), none), ((1, Dir.next), none)]

/-- An empty property cache, the C7 witness input. -/
def c7w_cache : PropertyMutations :=
  { native := [], custom := [], clean_count := 0, dirty_count := 0 }

/-- The stored original position of `c8_origin` (holding its own pending
promise), the C8 witness input. -/
def c8w_pos : Pos :=
  { parent := some 0, prev := some (.promise 10 .prev), next := some .nil }

end MD

/-! ### Lemmas

Helper lemmas about the embedded engine, leading up to the per-claim
theorems below. -/


namespace MD

theorem JMap.get_mem {K V : Type} [DecidableEq K] {m : JMap K V} {k : K} {v : V}
    (h : m.get k = some v) : (k, v) ∈ m.entries := by
  induction m with
  | nil => simp [JMap.get] at h
  | cons e rest ih =>
    obtain ⟨k1, v1⟩ := e
    unfold JMap.get at h
    unfold JMap.entries
    by_cases he : k1 = k
    · subst he
      simp at h
      subst h
      exact List.mem_cons_self _ _
    · simp [he] at h
      exact List.mem_cons_of_mem _ (ih h)

theorem checkSlots_spec {t : TreeMutations} {sy : Bool}
    (hs : TreeMutations.checkSlots t sy = true)
    {n : Nat} {mn : MutatedNode} (hmem : t.floating.get n = some mn)
    {m : Mode} {d : Dir} {p : Pos} (hp : mn.pos m = some p) {k : Nat}
    (hk : p.get d = some (.node k)) :
    ((t.idx m).side d).get k = some mn.node := by
  unfold TreeMutations.checkSlots at hs
  unfold JMap.all at hs
  have h1 := List.all_eq_true.mp hs _ (JMap.get_mem hmem)
  have h2 := List.all_eq_true.mp h1 m (by cases m <;> simp)
  rw [hp] at h2
  have h3 := List.all_eq_true.mp h2 d (by cases d <;> simp)
  rw [hk] at h3
  unfold TreeMutations.checkSlot at h3
  simpa using h3

end MD

namespace MD

theorem checkSlots_known {t : TreeMutations}
    (hs : TreeMutations.checkSlots t true = true)
    {n : Nat} {mn : MutatedNode} (hmem : t.floating.get n = some mn)
    {m : Mode} {d : Dir} {p : Pos} (hp : mn.pos m = some p) :
    (∃ k, p.get d = some (.node k)) ∨ p.get d = some .nil := by
  unfold TreeMutations.checkSlots at hs
  unfold JMap.all at hs
  have h1 := List.all_eq_true.mp hs _ (JMap.get_mem hmem)
  have h2 := List.all_eq_true.mp h1 m (by cases m <;> simp)
  rw [hp] at h2
  have h3 := List.all_eq_true.mp h2 d (by cases d <;> simp)
  unfold TreeMutations.checkSlot at h3
  match hv : p.get d with
  | none => rw [hv] at h3; simp at h3
  | some (.promise o d2) => rw [hv] at h3; simp at h3
  | some .nil => exact Or.inr rfl
  | some (.node k) => exact Or.inl ⟨k, rfl⟩

end MD

namespace MD

theorem JMap.get_set_self {K V : Type} [DecidableEq K] (m : JMap K V) (k : K) (v : V) :
    (m.set k v).get k = some v := by
  induction m with
  | nil => simp [JMap.set, JMap.get]
  | cons e rest ih =>
    unfold JMap.set
    by_cases he : e.1 = k
    · simp [he, JMap.get]
    · simp only [he, if_false]
      unfold JMap.get
      simp [he, ih]

end MD

namespace MD

theorem JMap.get_set_ne {K V : Type} [DecidableEq K] (m : JMap K V) (k k2 : K) (v : V)
    (h : k ≠ k2) : (m.set k v).get k2 = m.get k2 := by
  induction m with
  | nil => simp [JMap.set, JMap.get, h]
  | cons e rest ih =>
    unfold JMap.set
    by_cases he : e.1 = k
    · simp [he, JMap.get, h]
    · simp only [he, if_false]
      unfold JMap.get
      simp [ih]

theorem floating_setIdx (t : TreeMutations) (m : Mode) (s : SIndex) :
    (t.setIdx m s).floating = t.floating := by
  cases m <;> rfl

theorem Pos.get_set_same (p : Pos) (d : Dir) (v : Option Sibling) :
    (p.set d v).get d = v := by
  cases d <;> rfl

end MD

namespace MD

theorem JMap.has_of_set {K V : Type} [DecidableEq K] {m : JMap K V} {k k2 : K} {v : V}
    (h : (m.set k v).has k2 = true) : m.has k2 = true ∨ k2 = k := by
  induction m with
  | nil =>
    simp [JMap.set, JMap.has, JMap.get] at h
    exact Or.inr h.symm
  | cons e rest ih =>
    unfold JMap.set at h
    by_cases he : e.1 = k
    · simp only [he, if_true] at h
      unfold JMap.has JMap.get at h ⊢
      by_cases hk : k = k2
      · exact Or.inr hk.symm
      · simp [hk, he] at h ⊢
        exact Or.inl h
    · simp only [he, if_false] at h
      unfold JMap.has JMap.get at h ⊢
      by_cases h2 : e.1 = k2
      · simp [h2]
      · simp [h2] at h ⊢
        exact ih h

theorem JMap.has_of_del {K V : Type} [DecidableEq K] {m : JMap K V} {k k2 : K}
    (h : (m.del k).has k2 = true) : m.has k2 = true := by
  induction m with
  | nil => exact h
  | cons e rest ih =>
    unfold JMap.del at h
    by_cases he : e.1 = k
    · simp only [he, if_true] at h
      unfold JMap.has JMap.get
      by_cases h2 : e.1 = k2
      · simp [h2]
      · simp [h2]
        exact h
    · simp only [he, if_false] at h
      unfold JMap.has JMap.get at h ⊢
      by_cases h2 : e.1 = k2
      · simp [h2]
      · simp [h2] at h ⊢
        exact ih h

theorem hasOf_setMN {t : TreeMutations} {mn : MutatedNode} {n : Nat}
    (h : (t.setMN mn).floating.has n = true) : t.floating.has n = true := by
  unfold TreeMutations.setMN at h
  split at h
  case isTrue hc =>
    rcases JMap.has_of_set h with h2 | h2
    · exact h2
    · subst h2; exact hc
  case isFalse => exact h

theorem floating_indexRemove (t : TreeMutations) (m : Mode) (mn : MutatedNode) :
    (t.indexRemove m mn).floating = t.floating := by
  unfold TreeMutations.indexRemove
  split
  · rfl
  · simp [floating_setIdx]

theorem floating_indexAdd (t : TreeMutations) (m : Mode) (mn : MutatedNode) :
    (t.indexAdd m mn).floating = t.floating := by
  unfold TreeMutations.indexAdd
  split
  · rfl
  · simp [floating_setIdx]

theorem hasOf_indexUpdate {t : TreeMutations} {m : Mode} {mnid : Nat}
    {sib : Option Sibling} {side : Dir} {parent : Option Nat} {n : Nat}
    (h : (t.indexUpdate m mnid sib side parent).floating.has n = true) :
    t.floating.has n = true := by
  unfold TreeMutations.indexUpdate at h
  split at h
  · exact h
  · simp only at h
    split at h
    · exact hasOf_setMN h
    · split at h <;> split at h <;>
        exact hasOf_setMN (by simpa [floating_setIdx] using h)

theorem hasOf_resolve {t : TreeMutations} {o : Nat} {d : Dir} {v : Option Sibling}
    {n : Nat} (h : (t.resolve o d v).floating.has n = true) :
    t.floating.has n = true := hasOf_indexUpdate h

theorem hasOf_discard {t : TreeMutations} {o : Nat} {d : Dir} {n : Nat}
    (h : (t.discard o d).floating.has n = true) : t.floating.has n = true := by
  unfold TreeMutations.discard at h
  split at h
  · split at h
    · exact h
    · split at h
      · exact h
      · exact hasOf_setMN h
  · exact h

theorem hasOf_resumeEnsureMutated {t : TreeMutations} {o : Nat} {smn : MutatedNode}
    {n : Nat} (h : (t.resumeEnsureMutated o smn).1.floating.has n = true) :
    t.floating.has n = true := by
  unfold TreeMutations.resumeEnsureMutated at h
  split at h
  · exact hasOf_setMN h
  · exact h

theorem hasOf_resumeLoop {t : TreeMutations} {o : Nat} {d : Dir} {fuel : Nat}
    {smn : Option MutatedNode} {cur : Option Sibling} {n : Nat}
    (h : (t.resumeLoop o d fuel smn cur).1.floating.has n = true) :
    t.floating.has n = true := by
  induction fuel generalizing t smn cur with
  | zero =>
    cases smn <;> exact h
  | succ fuel ih =>
    match smn with
    | none => exact hasOf_resolve h
    | some mn =>
      unfold TreeMutations.resumeLoop at h
      rcases hp : t.resumeEnsureMutated o mn with ⟨t1, smn1⟩
      rw [hp] at h
      simp only at h
      have step : t1.floating.has n = true → t.floating.has n = true := by
        intro hx
        have hx2 : (t.resumeEnsureMutated o mn).1.floating.has n = true := by
          rw [hp]; exact hx
        exact hasOf_resumeEnsureMutated hx2
      split at h
      · exact step (hasOf_setMN h)
      · exact step (hasOf_resolve h)
      · exact step (ih h)

theorem hasOf_resume {t : TreeMutations} {o : Nat} {d : Dir} {hnt : Hint} {fuel : Nat}
    {n : Nat} (h : (t.resume o d hnt fuel).1.floating.has n = true) :
    t.floating.has n = true := by
  unfold TreeMutations.resume at h
  cases hnt with
  | nil => exact hasOf_resolve h
  | undef => exact hasOf_resolve h
  | node k => exact hasOf_resumeLoop h
  | mn k => exact hasOf_resumeLoop h

theorem hasOf_setSlot {t : TreeMutations} {mnid : Nat} {m : Mode} {d : Dir}
    {v : Option Sibling} {n : Nat}
    (h : (t.setSlot mnid m d v).floating.has n = true) : t.floating.has n = true := by
  unfold TreeMutations.setSlot at h
  split at h
  · exact h
  · split at h
    · exact h
    · exact hasOf_setMN h

theorem hasOf_origPromiseSibling {t : TreeMutations} {fprev : Nat} {fdir bdir : Dir}
    {hnt : Hint} {fuel : Nat} {n : Nat}
    (h : (t.origPromiseSibling fprev fdir bdir hnt fuel).floating.has n = true) :
    t.floating.has n = true := by
  unfold TreeMutations.origPromiseSibling at h
  split at h
  · exact hasOf_setSlot h
  · simp only at h
    rcases hr : TreeMutations.resume { t with promisePtr := t.promisePtr.set (fprev, fdir) none } fprev fdir hnt fuel with ⟨t1, r⟩
    rw [hr] at h
    have step : t1.floating.has n = true → t.floating.has n = true := by
      intro hx
      have hx2 : (TreeMutations.resume
          { t with promisePtr := t.promisePtr.set (fprev, fdir) none }
          fprev fdir hnt fuel).1.floating.has n = true := by
        rw [hr]; exact hx
      exact hasOf_resume
        (t := { t with promisePtr := t.promisePtr.set (fprev, fdir) none }) hx2
    split at h
    · exact step h
    · exact step (hasOf_setSlot h)

end MD

namespace MD

theorem hasOf_fixedPairStep {t : TreeMutations} {f fn : Nat} {n : Nat}
    (h : (t.fixedPairStep f fn).floating.has n = true) :
    t.floating.has n = true := by
  unfold TreeMutations.fixedPairStep at h
  simp only at h
  split at h
  case h_1 mn hmn =>
    rw [floating_indexAdd] at h
    split at h
    · split at h
      · exact hasOf_setSlot (hasOf_setSlot h)
      · exact hasOf_setSlot h
    · exact hasOf_setSlot (hasOf_setSlot h)
  case h_2 =>
    split at h
    · split at h
      · exact hasOf_setSlot (hasOf_setSlot h)
      · exact hasOf_setSlot h
    · exact hasOf_setSlot (hasOf_setSlot h)

theorem hasOf_fixedPairs {t : TreeMutations} {f : Nat} {rest : List Nat} {n : Nat}
    (h : (TreeMutations.fixedPairs t f rest).1.floating.has n = true) :
    t.floating.has n = true := by
  induction rest generalizing t f with
  | nil => exact h
  | cons fn rest ih =>
    unfold TreeMutations.fixedPairs at h
    exact hasOf_fixedPairStep (ih h)

theorem hasOf_fixedChain {t : TreeMutations} {fixed : List Nat}
    {ph nh : Hint} {fuel : Nat} {n : Nat}
    (h : (t.fixedChain fixed ph nh fuel).floating.has n = true) :
    t.floating.has n = true := by
  cases fixed with
  | nil => unfold TreeMutations.fixedChain at h; exact h
  | cons f0 rest =>
    unfold TreeMutations.fixedChain at h
    simp only at h
    rcases hp : TreeMutations.fixedPairs
        (TreeMutations.origPromiseSibling t f0 Dir.prev Dir.next ph fuel) f0 rest
      with ⟨t1, last⟩
    rw [hp] at h
    simp only at h
    have step : t1.floating.has n = true → t.floating.has n = true := by
      intro hx
      have hx2 : (TreeMutations.fixedPairs
          (TreeMutations.origPromiseSibling t f0 Dir.prev Dir.next ph fuel)
          f0 rest).1.floating.has n = true := by
        rw [hp]; exact hx
      exact hasOf_origPromiseSibling (hasOf_fixedPairs hx2)
    split at h
    · rw [floating_indexAdd] at h
      exact step (hasOf_origPromiseSibling h)
    · exact step (hasOf_origPromiseSibling h)

end MD

namespace MD

theorem t_markIncorrect (ps : PropState) (mnid : Nat) (bdir : Dir) :
    (TreeMutations.markIncorrect ps mnid bdir).t = ps.t := by
  unfold TreeMutations.markIncorrect
  cases bdir <;>
    (split
     · rfl
     · split
       · rfl
       · simp only
         split <;> rfl)

theorem hasOf_markFixed {ps : PropState} {mn : MutatedNode} {fdir : Dir} {n : Nat}
    (h : (TreeMutations.markFixed ps mn fdir).t.floating.has n = true) :
    ps.t.floating.has n = true := by
  unfold TreeMutations.markFixed at h
  simp only at h
  split at h
  · split at h
    · exact JMap.has_of_del (by
        simpa [floating_indexRemove] using hasOf_discard h)
    all_goals exact JMap.has_of_del (by simpa [floating_indexRemove] using h)
  · exact JMap.has_of_del (by simpa [floating_indexRemove] using h)

theorem hasOf_propagateCands {parent : Option Nat} {cands : List Nat}
    {fdir bdir : Dir} {inc : Int} {ps : PropState} {last : Option MutatedNode}
    {idx : Int} {steps : Nat} {n : Nat}
    (h : (TreeMutations.propagateCands parent cands fdir bdir inc ps last idx steps).1.t.floating.has n = true) :
    ps.t.floating.has n = true := by
  induction steps generalizing ps last idx with
  | zero => exact h
  | succ steps ih =>
    unfold TreeMutations.propagateCands at h
    split at h
    · exact h
    · split at h
      · exact h
      · split at h
        · exact hasOf_markFixed (ih h)
        · rw [t_markIncorrect] at h
          exact h

theorem hasOf_extendLoop {parent : Option Nat} {fdir bdir : Dir} {ps : PropState}
    {mn : MutatedNode} {fuel : Nat} {n : Nat}
    (h : (TreeMutations.extendLoop parent fdir bdir ps mn fuel).t.floating.has n = true) :
    ps.t.floating.has n = true := by
  induction fuel generalizing ps mn with
  | zero => exact h
  | succ fuel ih =>
    unfold TreeMutations.extendLoop at h
    split at h
    · exact h
    · split at h
      · exact hasOf_markFixed (ih h)
      · rw [t_markIncorrect] at h
        exact h

theorem hasOf_propExtend {parent : Option Nat} {fdir bdir : Dir} {ext : Ext}
    {last : Option MutatedNode} {ps : PropState} {fuel : Nat} {n : Nat}
    (h : (TreeMutations.propExtend parent fdir bdir ext last ps fuel).t.floating.has n = true) :
    ps.t.floating.has n = true := by
  unfold TreeMutations.propExtend at h
  split at h
  · exact h
  · split at h
    · exact hasOf_extendLoop h
    · exact h
  · split at h
    · split at h
      · exact h
      · split at h
        · split at h
          · exact hasOf_markFixed (hasOf_extendLoop h)
          · rw [t_markIncorrect] at h
            exact h
        · exact hasOf_extendLoop h
    · exact h

theorem hasOf_propagate (ps : PropState) {parent : Option Nat} {cands : List Nat}
    {startIdx : Int} {steps : Nat} {inc : Int} {fdir bdir : Dir} {ext : Ext}
    {fuel : Nat} {n : Nat}
    (h : (TreeMutations.propagate ps parent cands startIdx steps inc fdir bdir ext fuel).1.t.floating.has n = true) :
    ps.t.floating.has n = true := by
  unfold TreeMutations.propagate at h
  rcases hp : TreeMutations.propagateCands parent cands fdir bdir inc ps none startIdx steps
    with ⟨ps1, last, stopped⟩
  rw [hp] at h
  simp only at h
  have step : ps1.t.floating.has n = true → ps.t.floating.has n = true := by
    intro hx
    have hx2 : (TreeMutations.propagateCands parent cands fdir bdir inc ps none startIdx steps).1.t.floating.has n = true := by
      rw [hp]; exact hx
    exact hasOf_propagateCands hx2
  split at h
  · exact step h
  · exact step (hasOf_propExtend h)

end MD

namespace MD

theorem hasOf_revertCheckPrev {ps : PropState} {cands : List Nat}
    {parent : Option Nat} {prevH : Hint} {nei : Option Nat} {fuel : Nat} {n : Nat}
    (h : (TreeMutations.revertCheckPrev ps cands parent prevH nei fuel).1.floating.has n = true) :
    ps.t.floating.has n = true := by
  unfold TreeMutations.revertCheckPrev at h
  split at h
  · exact h
  · split at h
    · simp only at h
      rename_i fv heq
      rcases hp : TreeMutations.propagate { ps with fixedv := fv } parent cands 0
          (if nei.isNone then cands.length else nei.getD 0 + 1) 1
          Dir.next Dir.prev (if nei.isNone then Ext.cont else Ext.off) fuel
        with ⟨ps1, r⟩
      rw [hp] at h
      have hx2 : (TreeMutations.propagate { ps with fixedv := fv } parent cands 0
          (if nei.isNone then cands.length else nei.getD 0 + 1) 1
          Dir.next Dir.prev (if nei.isNone then Ext.cont else Ext.off) fuel).1.t.floating.has n
          = true := by
        rw [hp]; exact h
      exact hasOf_propagate { ps with fixedv := fv } hx2
    · exact h

theorem hasOf_revertCheck {t : TreeMutations} {cands : List Nat}
    {parent : Option Nat} {others : Option (JMap Nat Nat)} {prevH nextH : Hint}
    {fuel : Nat} {n : Nat}
    (h : (t.revertCheck cands parent others prevH nextH fuel).1.floating.has n = true) :
    t.floating.has n = true := by
  unfold TreeMutations.revertCheck at h
  split at h
  · simp only at h
    rename_i fv heq
    rcases hp : TreeMutations.propagate { t := t, others := others, fixedv := fv }
        parent cands ((cands.length : Int) - 1) cands.length (-1) Dir.prev Dir.next
        (TreeMutations.extOfPrevHint prevH) fuel
      with ⟨ps1, r⟩
    rw [hp] at h
    simp only at h
    have step : ps1.t.floating.has n = true → t.floating.has n = true := by
      intro hx
      have hx2 : (TreeMutations.propagate { t := t, others := others, fixedv := fv }
          parent cands ((cands.length : Int) - 1) cands.length (-1) Dir.prev Dir.next
          (TreeMutations.extOfPrevHint prevH) fuel).1.t.floating.has n
          = true := by
        rw [hp]; exact hx
      exact hasOf_propagate { t := t, others := others, fixedv := fv } hx2
    split at h
    · exact step h
    · exact step (hasOf_revertCheckPrev h)
  · exact hasOf_revertCheckPrev h
  · exact hasOf_revertCheckPrev h

theorem hasOf_resolvedLoop {t : TreeMutations} {parent : Nat}
    {resolved : JMap Nat Nat} {fuel : Nat} {n : Nat}
    (h : (t.resolvedLoop parent resolved fuel).floating.has n = true) :
    t.floating.has n = true := by
  induction fuel generalizing t resolved with
  | zero =>
    unfold TreeMutations.resolvedLoop at h
    split at h <;> first
      | exact h
      | (exfalso; omega)
  | succ fuel ih =>
    match hres : resolved with
    | [] => unfold TreeMutations.resolvedLoop at h; exact h
    | (id, flags) :: rest =>
      unfold TreeMutations.resolvedLoop at h
      simp only at h
      rcases hp : t.revertCheck [id] (some parent) (some rest)
          (if flags &&& 1 != 0 then Hint.mn id else Hint.undef)
          (if flags &&& 2 != 0 then Hint.mn id else Hint.undef) fuel with ⟨t1, o⟩
      rw [hp] at h
      simp only at h
      have hx2 : (t.revertCheck [id] (some parent) (some rest)
          (if flags &&& 1 != 0 then Hint.mn id else Hint.undef)
          (if flags &&& 2 != 0 then Hint.mn id else Hint.undef) fuel).1.floating.has n = true := by
        rw [hp]
        exact ih h
      exact hasOf_revertCheck hx2

theorem hasOf_resumeInto {s : MState} {o : Nat} {d : Dir} {hnt : Hint}
    {fuel n : Nat}
    (h : (TreeMutations.resumeInto s o d hnt fuel).t.floating.has n = true) :
    s.t.floating.has n = true := by
  unfold TreeMutations.resumeInto at h
  rcases hp : s.t.resume o d hnt fuel with ⟨t1, r⟩
  rw [hp] at h
  simp only at h
  have hx2 : (s.t.resume o d hnt fuel).1.floating.has n = true := by
    rw [hp]
    split at h <;> exact h
  exact hasOf_resume hx2

theorem hasOf_hpPrev {s : MState} {mn0 : MutatedNode} {fuel n : Nat}
    (h : (TreeMutations.hpPrev s mn0 fuel).t.floating.has n = true) :
    s.t.floating.has n = true := by
  unfold TreeMutations.hpPrev at h
  repeat' split at h
  all_goals try simp only at h
  all_goals first
    | exact h
    | exact hasOf_resolve (hasOf_resolve h)
    | exact hasOf_resolve h
    | exact hasOf_resumeInto h

theorem hasOf_hpNextTrue {s : MState} {mn1 : MutatedNode} {n : Nat}
    (h : (TreeMutations.hpNextTrue s mn1).t.floating.has n = true) :
    s.t.floating.has n = true := by
  unfold TreeMutations.hpNextTrue at h
  repeat' split at h
  all_goals exact h

theorem hasOf_hpNextFalse {s : MState} {nid : Nat} {fuel n : Nat}
    (h : (TreeMutations.hpNextFalse s nid fuel).t.floating.has n = true) :
    s.t.floating.has n = true := by
  unfold TreeMutations.hpNextFalse at h
  split at h
  · exact hasOf_resumeInto h
  · exact h

theorem hasOf_hpFixed {s : MState} {node : Option Nat} {n : Nat}
    (h : (TreeMutations.hpFixed s node).t.floating.has n = true) :
    s.t.floating.has n = true := by
  unfold TreeMutations.hpFixed at h
  simp only at h
  split at h
  · simp only at h
    exact hasOf_resolve h
  · exact h

theorem hasOf_handlePromises {s : MState} {node : Option Nat} {hpv hnv : Bool}
    {fuel n : Nat}
    (h : (TreeMutations.handlePromises s node hpv hnv fuel).1.t.floating.has n = true) :
    s.t.floating.has n = true := by
  unfold TreeMutations.handlePromises at h
  split at h
  · simp only at h
    have hS : (if hpv then TreeMutations.hpPrev s (by assumption) fuel
        else s).t.floating.has n = true := by
      split at h
      · exact hasOf_hpNextTrue h
      · exact hasOf_hpNextFalse h
    split at hS
    · exact hasOf_hpPrev hS
    · exact hS
  · simp only at h
    exact hasOf_hpFixed h

theorem floating_removalStep {parent fuel : Nat} {acc : MState × List Nat × Bool}
    {node n : Nat}
    (h : (TreeMutations.removalStep parent fuel acc node).1.t.floating.has n = true) :
    acc.1.t.floating.has n = true ∨ n = node := by
  rcases acc with ⟨s, fixed, rp⟩
  unfold TreeMutations.removalStep at h
  simp only at h
  rcases hp : TreeMutations.handlePromises s (some node) true true fuel with ⟨s1, mnid⟩
  rw [hp] at h
  try simp only at h
  have step : s1.t.floating.has n = true → s.t.floating.has n = true := fun hx =>
    hasOf_handlePromises (show (TreeMutations.handlePromises s (some node)
      true true fuel).1.t.floating.has n = true by rw [hp]; exact hx)
  split at h
  · -- floating record exists
    try simp only at h
    split at h
    · -- pure add: record deleted
      exact .inl (step (by
        have h2 := JMap.has_of_del h
        rwa [floating_indexRemove] at h2))
    · -- record kept with mutated cleared
      exact .inl (step (by
        have h2 := hasOf_setMN h
        rwa [floating_indexRemove] at h2))
  · -- fixed node: new record set
    try simp only at h
    rcases JMap.has_of_set h with h2 | h2
    · exact .inl (step h2)
    · exact .inr h2

theorem floating_removalFold {parent fuel : Nat} {removed : List Nat}
    {acc : MState × List Nat × Bool} {n : Nat}
    (h : (removed.foldl (TreeMutations.removalStep parent fuel) acc).1.t.floating.has n
      = true) :
    acc.1.t.floating.has n = true ∨ n ∈ removed := by
  induction removed generalizing acc with
  | nil => exact .inl h
  | cons x xs ih =>
    rcases ih h with hx | hx
    · rcases floating_removalStep hx with hy | hy
      · exact .inl hy
      · exact .inr (by simp [hy])
    · exact .inr (List.mem_cons_of_mem _ hx)

theorem floating_addedStep {parent : Nat} {added : List Nat} {prev next : Option Nat}
    {acc : TreeMutations × List Nat} {ai n : Nat}
    (h : (TreeMutations.addedStep parent added prev next acc ai).1.floating.has n = true) :
    acc.1.floating.has n = true ∨ n ∈ added := by
  rcases acc with ⟨t, cands⟩
  unfold TreeMutations.addedStep at h
  simp only at h
  split at h
  · exact .inl h
  · rename_i node hnode
    try simp only at h
    have hmem : node ∈ added := List.get?_mem hnode
    split at h
    · -- fresh record
      try simp only at h
      rw [floating_indexAdd] at h
      have h2 := hasOf_setMN h
      rcases JMap.has_of_set h2 with h3 | h3
      · exact .inl h3
      · exact .inr (h3 ▸ hmem)
    · -- existing record
      split at h <;>
      · try simp only at h
        rw [floating_indexAdd] at h
        exact .inl (hasOf_setMN h)

theorem floating_addedFold {parent : Nat} {added : List Nat} {prev next : Option Nat}
    {l : List Nat} {acc : TreeMutations × List Nat} {n : Nat}
    (h : (l.foldl (TreeMutations.addedStep parent added prev next) acc).1.floating.has n
      = true) :
    acc.1.floating.has n = true ∨ n ∈ added := by
  induction l generalizing acc with
  | nil => exact .inl h
  | cons x xs ih =>
    rcases ih h with hx | hx
    · exact floating_addedStep hx
    · exact .inr hx

theorem hasOf_idxUpdOpt {t : TreeMutations} {o : Option Nat} {sib : Option Sibling}
    {d : Dir} {parent n : Nat}
    (h : (TreeMutations.idxUpdOpt t o sib d parent).floating.has n = true) :
    t.floating.has n = true := by
  unfold TreeMutations.idxUpdOpt at h
  split at h
  · exact hasOf_indexUpdate h
  · exact h

theorem hasOf_mutStep5 {t : TreeMutations} {cands : List Nat} {parent : Nat}
    {resolved : JMap Nat Nat} {ph nh : Hint} {cond : Bool} {fuel n : Nat}
    (h : (TreeMutations.mutStep5 t cands parent resolved ph nh cond fuel).1.floating.has n
      = true) :
    t.floating.has n = true := by
  unfold TreeMutations.mutStep5 at h
  split at h
  · simp only at h
    rcases hp : t.revertCheck cands (some parent) (some resolved) ph nh fuel with ⟨t1, o⟩
    rw [hp] at h
    simp only at h
    exact hasOf_revertCheck (show (t.revertCheck cands (some parent) (some resolved)
      ph nh fuel).1.floating.has n = true by rw [hp]; exact h)
  · exact h

theorem floating_mutationCore {t : TreeMutations} {parent : Nat}
    {removed added : List Nat} {prev next : Option Nat} {fuel n : Nat}
    (h : (TreeMutations.mutationCore t parent removed added prev next fuel).floating.has n
      = true) :
    t.floating.has n = true ∨ n ∈ removed ∨ n ∈ added := by
  unfold TreeMutations.mutationCore at h
  simp only at h
  have a1 := hasOf_resolvedLoop h
  have a2 := hasOf_mutStep5 a1
  rcases floating_addedFold a2 with a3 | a3
  · simp only at a3
    have a4 := hasOf_fixedChain (hasOf_idxUpdOpt (hasOf_idxUpdOpt a3))
    have a5 := hasOf_handlePromises a4
    rcases floating_removalFold a5 with b1 | b1
    · simp only at b1
      have b2 := hasOf_handlePromises b1
      simp only at b2
      exact .inl b2
    · exact .inr (.inl b1)
  · exact .inr (.inr a3)

theorem floating_mutationOk {t t2 : TreeMutations} {parent : Nat}
    {removed added : List Nat} {prev next : Option Nat} {fuel n : Nat}
    (h : t.mutation parent removed added prev next fuel = .ok t2)
    (hn : t2.floating.has n = true) :
    t.floating.has n = true ∨ n ∈ removed ∨ n ∈ added := by
  unfold TreeMutations.mutation TreeMutations.checkedResult at h
  split at h
  · injection h with h
    subst h
    exact floating_mutationCore hn
  · exact absurd h (by simp)

theorem floating_applyCallsAux {t t2 : TreeMutations} {cs : List MCall} {fuel n : Nat}
    (h : t.applyCalls cs fuel = .ok t2) (hn : t2.floating.has n = true) :
    t.floating.has n = true ∨ ∃ c ∈ cs, n ∈ c.removed ∨ n ∈ c.added := by
  induction cs generalizing t with
  | nil =>
    unfold TreeMutations.applyCalls at h
    simp only [List.foldlM_nil] at h
    simp only [pure, Except.pure] at h
    injection h with h
    subst h
    exact .inl hn
  | cons c cs ih =>
    unfold TreeMutations.applyCalls at h
    rw [List.foldlM_cons] at h
    rcases hm : t.mutation c.parent c.removed c.added c.prev c.next fuel with e | t1
    · rw [hm] at h
      simp only [bind, Except.bind] at h
      exact absurd h (by simp)
    · rw [hm] at h
      simp only [bind, Except.bind] at h
      have h2 : TreeMutations.applyCalls t1 cs fuel = .ok t2 := by
        unfold TreeMutations.applyCalls
        exact h
      rcases ih h2 with hx | hx
      · rcases floating_mutationOk hm hx with hy | hy | hy
        · exact .inl hy
        · exact .inr ⟨c, List.mem_cons_self c cs, .inl hy⟩
        · exact .inr ⟨c, List.mem_cons_self c cs, .inr hy⟩
      · rcases hx with ⟨c2, hc2, hor⟩
        exact .inr ⟨c2, List.mem_cons_of_mem _ hc2, hor⟩

end MD

/-! ### Claim theorems -/

namespace MD

/-- Claim C2: starting from an empty engine whose root 0 originally has
children [1,2,3,4], after `mutation(0,[1],[],null,2)` then
`mutation(0,[],[1],4,null)` exactly one record exists — node 1's, with
original {parent 0, prev null, next 2} and mutated {parent 0, prev 4,
next null}; nodes 2,3,4 have no records and `mutated(0)` is true. -/
theorem c2_simple_rearrangement :
    c2_run.map (fun t => t.floating.keys) = .ok [1]
    ∧ c2_run.map (fun t => t.get 1) = .ok (some c2_record)
    ∧ c2_run.map (fun t => (t.get 2, t.get 3, t.get 4)) = .ok (none, none, none)
    ∧ c2_run.map (fun t => MutationDiff.mutated { tree := t } c2_dom (some 0)) = .ok true :=
  ⟨by decide, by decide, by decide, by decide⟩

/-- Claim C9: from an empty engine, `mutation(0,[],[1],null,null)` then
`mutation(0,[1],[],null,null)` cancel: the engine holds zero records and
`mutated()` returns false. -/
theorem c9_add_remove_cancel :
    c9_run.map (fun t =>
      (t.size, MutationDiff.mutated { tree := t } c9_dom none))
    = .ok (0, false) := by decide

/-- Claim C1, counterexample: after removing node 1 from root 0 = [1, 2]
(one `mutation` call), node 2's current position triple differs from its
original one (its previous sibling 1 is gone), yet node 2 has no record.
The stored-state direction of the claimed equivalence fails. -/
theorem c1_counterexample :
    c1_run.map (fun t => t.get 2) = .ok none
    ∧ DOM.position c1_dom_after 2 ≠ DOM.position c1_dom_before 2 :=
  ⟨by decide, by decide⟩

/-- Claim C1 (amended): after any sequence of successful `mutation` calls
from the empty engine, a handle has a record only if some call reported it
in its removed or added list.  (The converse direction of the original
claim fails: `c1_counterexample`.) -/
theorem c1_floating_implies_reported {cs : List MCall} {fuel : Nat} {t2 : TreeMutations} {n : Nat}
    (h : TreeMutations.applyCalls TreeMutations.empty cs fuel = .ok t2)
    (hn : t2.floating.has n = true) :
    ∃ c ∈ cs, n ∈ c.removed ∨ n ∈ c.added := by
  rcases floating_applyCallsAux h hn with hx | hx
  · simp [TreeMutations.empty, JMap.empty, JMap.has, JMap.get] at hx
  · exact hx

/-- Witness for `c1_floating_implies_reported`: the C2 call sequence and
node 1. -/
theorem c1_floating_implies_reported_witness :
    TreeMutations.applyCalls TreeMutations.empty
      [{ parent := 0, removed := [1], next := some 2 },
       { parent := 0, added := [1], prev := some 4 }] 100 = .ok c2_state
    ∧ c2_state.floating.has 1 = true
    ∧ ∃ c ∈ [({ parent := 0, removed := [1], next := some 2 } : MCall),
             { parent := 0, added := [1], prev := some 4 }],
        1 ∈ c.removed ∨ 1 ∈ c.added :=
  ⟨by decide, by decide,
    @c1_floating_implies_reported
      [{ parent := 0, removed := [1], next := some 2 },
       { parent := 0, added := [1], prev := some 4 }] 100 c2_state 1
      (by decide) (by decide)⟩

/-- Claim C3: when `synchronize()` returns normally, every slot of every
stored position is fully known — a node handle or null, never undefined
and never a placed promise.  Extracted from the passing
`#assert_valid_state(true)` that ends the source method. -/
theorem c3_synchronize_fully_known (t t' : TreeMutations) (dom : DOM) (fuel : Nat)
    (h : t.synchronize dom fuel = .ok t')
    (n : Nat) (mn : MutatedNode) (hmem : t'.floating.get n = some mn)
    (m : Mode) (d : Dir) (p : Pos) (hp : mn.pos m = some p) :
    (∃ k, p.get d = some (.node k)) ∨ p.get d = some .nil := by
  unfold TreeMutations.synchronize at h
  split at h
  · exact absurd h (by simp)
  case h_2 s hphase1 =>
    split at h
    · exact absurd h (by simp)
    case h_2 tmid pp hnext =>
      split at h
      · exact absurd h (by simp)
      case h_2 t2 hprev =>
        unfold TreeMutations.syncChecked at h
        split at h
        case isTrue hA =>
          injection h with h2
          subst h2
          unfold TreeMutations.assertValidState at hA
          simp only [Bool.and_eq_true] at hA
          exact checkSlots_known hA.1.1 hmem hp
        case isFalse => exact absurd h (by simp)

/-- Witness for `c3_synchronize_fully_known`: synchronizing the C2 end
state against its live tree, at node 1's original prev slot. -/
theorem c3_synchronize_fully_known_witness :
    (c2_state.synchronize c2_dom 100 = .ok c2_state)
    ∧ (c2_state.floating.get 1 = some c2_record)
    ∧ (c2_record.pos .original
        = some { parent := some 0, prev := some .nil, next := some (.node 2) })
    ∧ ((∃ k, ({ parent := some 0, prev := some .nil, next := some (.node 2) }
          : Pos).get .prev = some (.node k))
      ∨ ({ parent := some 0, prev := some .nil, next := some (.node 2) }
          : Pos).get .prev = some .nil) :=
  ⟨by decide, by decide, by decide,
    c3_synchronize_fully_known c2_state c2_state c2_dom 100 (by decide) 1 c2_record
      (by decide) .original .prev
      { parent := some 0, prev := some .nil, next := some (.node 2) } (by decide)⟩

/-- Claim C4, counterexample: after the `c4_run` script returns normally,
the mutated next-sibling index maps key 4 to record 1, but no record's
stored mutated next sibling is node 4 — an index entry not backed by any
stored position, which the claimed invariant forbids. -/
theorem c4_counterexample :
    c4_run.map (fun t =>
      (t.mutated.next.get 4,
       t.floating.all (fun _ mn => (mn.mutated.getD {}).next != some (.node 4))))
    = .ok (some 1, true) := by decide

/-- Claim C4 (amended): the back-pointer direction holds after every
successful `mutation` call — whenever a record's stored position names a
node handle as sibling, the matching index maps that handle back to the
record.  (The no-unbacked-entries direction fails: `c4_counterexample`.)
Extracted from the passing `#assert_valid_state()` ending the call. -/
theorem c4_index_backpointers (t t' : TreeMutations) (parent : Nat)
    (removed added : List Nat) (prev next : Option Nat) (fuel : Nat)
    (h : t.mutation parent removed added prev next fuel = .ok t')
    (n : Nat) (mn : MutatedNode) (hmem : t'.floating.get n = some mn)
    (m : Mode) (d : Dir) (p : Pos) (hp : mn.pos m = some p) (k : Nat)
    (hk : p.get d = some (.node k)) :
    ((t'.idx m).side d).get k = some mn.node := by
  unfold TreeMutations.mutation TreeMutations.checkedResult at h
  split at h
  case isTrue hA =>
    injection h with h2
    subst h2
    unfold TreeMutations.assertValidState at hA
    simp only [Bool.and_eq_true] at hA
    exact checkSlots_spec hA.1.1 hmem hp hk
  case isFalse => exact absurd h (by simp)

/-- Witness for `c4_index_backpointers`: the first C2 call, node 1's
original next sibling 2. -/
theorem c4_index_backpointers_witness :
    (TreeMutations.empty.mutation 0 [1] [] none (some 2) 100 = .ok c4w_state)
    ∧ (c4w_state.floating.get 1 = some c4w_record)
    ∧ (c4w_record.pos .original
        = some { parent := some 0, prev := some .nil, next := some (.node 2) })
    ∧ (({ parent := some 0, prev := some .nil, next := some (.node 2) }
        : Pos).get .next = some (.node 2))
    ∧ ((c4w_state.idx .original).side .next).get 2 = some c4w_record.node :=
  ⟨by decide, by decide, by decide, by decide,
    c4_index_backpointers TreeMutations.empty c4w_state 0 [1] [] none (some 2) 100
      (by decide) 1 c4w_record (by decide) .original .next
      { parent := some 0, prev := some .nil, next := some (.node 2) } (by decide)
      2 (by decide)⟩

/-- Claim C5: contradicted by the source.  A group with a parent but
neither endpoint makes `patch_grouped_children` throw (the `throw
Error("assertion error")` before the unreachable `continue`), aborting the
whole patch instead of skipping the group: with a second, patchable group
following, the call still returns the error. -/
theorem c5_unpatchable_group_raises :
    MutationDiff.patch_grouped_children
      [ { nodes := [7], parent := some 0 },
        { nodes := [8], parent := some 0, prev := some none, next := some none } ]
    = .error "assertion error" := by decide

/-- Claim C6: contradicted by the source.  `PropertyMutations.revert`
iterates `props.custom`, but no `props` is in scope in the method, so any
call with a `custom_set` callback throws a `ReferenceError` before the
custom entries can be reverted (the native entries' effects are computed
first, matching the statement order). -/
theorem c6_revert_custom_set_raises :
    c6_props.revert 5 true = .error "ReferenceError: props is not defined" := by decide

/-- Claim C7, counterexample: an attribute record for node 5 delivered
with a null old value is not ignored — `PropertyMutations.mark` creates an
entry with stored value null and, because the attribute currently has a
value, marks it dirty, growing the cache's dirty count. -/
theorem c7_counterexample :
    c7_md.props ≠ JMap.empty
    ∧ (c7_md.props.get 5).map (fun p => p.native.get (some "id"))
        = some (some { value := none, dirty := true })
    ∧ (c7_md.props.get 5).map (fun p => p.dirty_count) = some 1 := by decide

/-- Claim C7 (amended): a record for an unseen property key with a missing
(null) old value creates a cache entry whose stored value is null and whose
dirty flag is set exactly when the property currently has a value; the
dirty count grows accordingly.  The record is not ignored. -/
theorem c7_missing_old_marks_dirty (p : PropertyMutations) (key value : Option String)
    (h : p.native.get key = none) :
    ((p.mark .native key value none).native.get key
        = some { value := none, dirty := value.isSome })
    ∧ ((p.mark .native key value none).dirty_count
        = if value.isSome then p.dirty_count + 1 else p.dirty_count) := by
  cases value <;> simp [PropertyMutations.mark, h, JMap.get_set_self]

/-- Witness for `c7_missing_old_marks_dirty`: an empty cache, attribute
"id" currently "x", old value missing. -/
theorem c7_missing_old_marks_dirty_witness :
    (c7w_cache.native.get (some "id") = none)
    ∧ (((c7w_cache.mark .native (some "id") (some "x") none).native.get (some "id")
        = some { value := none, dirty := (some "x").isSome })
      ∧ ((c7w_cache.mark .native (some "id") (some "x") none).dirty_count
        = if (some "x").isSome then c7w_cache.dirty_count + 1 else c7w_cache.dirty_count)) :=
  ⟨by decide, c7_missing_old_marks_dirty c7w_cache (some "id") (some "x") (by decide)⟩

/-- Claim C8, counterexample: resolving the placed promise of `c8_tree`
writes the origin's original slot but does not clear the placement — record
11's mutated prev slot still holds the promise after `resolve` returns. -/
theorem c8_counterexample :
    (((c8_tree.resolve 10 .prev (some (.node 5))).floating.get 11).bind
        (fun mn => mn.mutated)).map (fun p => p.prev)
      = some (some (.promise 10 .prev))
    ∧ (((c8_tree.resolve 10 .prev (some (.node 5))).floating.get 10).bind
        (fun mn => mn.original)).map (fun p => p.prev)
      = some (some (.node 5)) := by decide

/-- Claim C8 (amended): `SiblingPromise.resolve` writes the resolved value
into the origin record's original slot for the promise's direction, and
leaves every record's mutated position unchanged — in particular it does
not clear a placement held in a mutated slot (`c8_counterexample`). -/
theorem c8_resolve_origin_update (t : TreeMutations) (o : Nat) (d : Dir) (v : Option Sibling)
    (mn : MutatedNode) (po : Pos)
    (h1 : t.floating.get o = some mn) (h2 : mn.original = some po) (h3 : mn.node = o) :
    ((((t.resolve o d v).floating.get o).bind (fun x => x.original)).map (fun p => p.get d)
        = some v)
    ∧ (∀ k2, ((t.resolve o d v).floating.get k2).map (fun x => x.mutated)
        = (t.floating.get k2).map (fun x => x.mutated)) := by
  subst h3
  have hhas : t.floating.has mn.node = true := by unfold JMap.has; rw [h1]; rfl
  have hpos : mn.pos Mode.original = some po := h2
  have hset : mn.setPos Mode.original (some po) = mn := by
    cases mn
    simp [MutatedNode.setPos]
    simp [MutatedNode.original] at h2
    exact h2.symm
  unfold TreeMutations.resolve TreeMutations.indexUpdate
  rw [h1]
  simp only [hpos, hset]
  split
  case isTrue heq =>
    unfold TreeMutations.setMN
    simp only [hhas, if_true]
    refine ⟨?_, ?_⟩
    · rw [JMap.get_set_self]
      simp [h2, heq]
    · intro k2
      by_cases hk : mn.node = k2
      · subst hk
        rw [JMap.get_set_self, h1]
      · rw [JMap.get_set_ne _ _ _ _ hk]
  case isFalse hne =>
    have hsp : (mn.setPos Mode.original (some (po.set d v))).node = mn.node := by
      cases mn; rfl
    have hspm : (mn.setPos Mode.original (some (po.set d v))).mutated = mn.mutated := by
      cases mn; rfl
    have hspo : (mn.setPos Mode.original (some (po.set d v))).original
        = some (po.set d v) := by
      cases mn; rfl
    unfold TreeMutations.setMN
    simp only [hsp, hhas, if_true]
    constructor
    · split <;> (try split) <;>
        simp [floating_setIdx, JMap.get_set_self, hspo, Pos.get_set_same]
    · intro k2
      by_cases hk : mn.node = k2
      · subst hk
        split <;> (try split) <;>
          simp [floating_setIdx, JMap.get_set_self, hspm, h1]
      · split <;> (try split) <;>
          simp [floating_setIdx, JMap.get_set_ne _ _ _ _ hk]

/-- Witness for `c8_resolve_origin_update`: resolving `c8_tree`'s placed
promise to node 5. -/
theorem c8_resolve_origin_update_witness :
    (c8_tree.floating.get 10 = some c8_origin)
    ∧ (c8_origin.original = some c8w_pos)
    ∧ (c8_origin.node = 10)
    ∧ (((((c8_tree.resolve 10 .prev (some (.node 5))).floating.get 10).bind
          (fun x => x.original)).map (fun p => p.get .prev) = some (some (.node 5)))
      ∧ (∀ k2, ((c8_tree.resolve 10 .prev (some (.node 5))).floating.get k2).map
          (fun x => x.mutated) = (c8_tree.floating.get k2).map (fun x => x.mutated))) :=
  ⟨by decide, by decide, by decide,
    c8_resolve_origin_update c8_tree 10 .prev (some (.node 5)) c8_origin c8w_pos
      (by decide) (by decide) (by decide)⟩

/-- Claim C10: `MutationDiff.diff(filter)` returns an empty map whenever
the filter contains neither the ORIGINAL nor the MUTATED bit, regardless of
the engine state and of the CHILDREN/PROPERTY bits. -/
theorem c10_diff_empty_without_dimension_flags (md : MutationDiff) (dom : DOM) (filter : Nat)
    (cg : Option (Nat → Option String → Option String))
    (h1 : filter &&& ORIGINAL = 0) (h2 : filter &&& MUTATED = 0) :
    md.diff dom filter cg = JMap.empty := by
  unfold MutationDiff.diff
  simp only [h1, h2]
  rfl

/-- Witness for `c10_diff_empty_without_dimension_flags`: a state with a
record and a dirty property, filter with all PROPERTY|CHILDREN bits. -/
theorem c10_diff_empty_witness :
    (0b1111 &&& ORIGINAL = 0) ∧ (0b1111 &&& MUTATED = 0)
    ∧ c10_md.diff c2_dom 0b1111 none = JMap.empty :=
  ⟨by decide, by decide, c10_diff_empty_without_dimension_flags c10_md c2_dom 0b1111 none (by decide) (by decide)⟩

end MD
